import Mathlib

set_option maxRecDepth 100000
set_option maxHeartbeats 1000000

/-!
Shallow embedding of `modules/video_coding/packet_buffer.cc` (webrtc
`video_coding::PacketBuffer`) and verification of its specification.

Machine integers are modelled as `Nat` with explicit reduction modulo
`2^16` wherever the C++ performs `uint16_t` arithmetic.  The two parallel
slot arrays are `List`s of length `size_`; every loop of the source is
translated into a structurally recursive function whose fuel is the bound
the source itself enforces (`size_` for the scan loops, the expansion
count for the growth loop).
-/

namespace WebRTC

/-- `2^16`, the modulus of RTP sequence numbers (`uint16_t`). -/
def kU16 : Nat := 65536

/-- `ForwardDiff<uint16_t>(a, b) = (uint16_t)(b - a)` from
`rtc_base/numerics/mod_ops.h`: the forward distance from `a` to `b`
modulo `2^16`. -/
def fwdDiff (a b : Nat) : Nat := (b % kU16 + kU16 - a % kU16) % kU16

/-- Modelled from the spec: `AheadOf<uint16_t>(a, b)` of
`rtc_base/numerics/sequence_number_util.h` (the header is not part of the
excerpt).  Spec §4.1: sequence comparisons use 16-bit wraparound with
signed circular-distance semantics — half the number space is ahead,
half behind; at the exact antipodal distance `2^15` the tie is broken by
the raw integer comparison `b < a`, as in the reference implementation. -/
def aheadOf (a b : Nat) : Bool :=
  if fwdDiff b a = 0 then false
  else if fwdDiff b a < 32768 then true
  else if fwdDiff b a = 32768 then decide (b % kU16 < a % kU16)
  else false

/-- `kMaxNalusPerPacket` from `h264_globals.h`: safety limit on the
per-packet NAL-unit count. -/
def kMaxNalusPerPacket : Nat := 10

/-- `kNoTemporalIdx` (`uint8_t(-1)`): temporal layering disabled. -/
def kNoTemporalIdx : Nat := 255

/-- `kMaxPaddingAge` from `PacketBuffer::UpdateMissingPackets`. -/
def kMaxPaddingAge : Nat := 1000

/-- H.264 NAL-unit types distinguished by `PacketBuffer::FindFrames`. -/
inductive NaluType
  | sps
  | pps
  | idr
  | other
deriving DecidableEq, Repr

/-- Codec identifier; `FindFrames` only distinguishes H.264 from the rest. -/
inductive VideoCodecType
  | h264
  | generic
deriving DecidableEq, Repr

/-- `VideoFrameType` values relevant to the packet buffer. -/
inductive VideoFrameType
  | emptyFrame
  | videoFrameKey
  | videoFrameDelta
deriving DecidableEq, Repr

/-- The H.264 member of the `video_type_header` variant
(`RTPVideoHeaderH264`); `nalus_length` is the length of `nalus`. -/
structure H264Header where
  nalus : List NaluType := []
deriving DecidableEq, Repr

/-- The parts of `RTPVideoHeader` read or written by the packet buffer:
the frame type, the codec-specific variant (`none` when the variant does
not hold an H.264 header), and `frame_marking.temporal_id`. -/
structure VideoHeader where
  frame_type : VideoFrameType := .emptyFrame
  video_type_header : Option H264Header := none
  temporal_id : Nat := kNoTemporalIdx
deriving DecidableEq, Repr

/-- The fields of `VCMPacket` used by `packet_buffer.cc`.  The payload
`dataPtr` is an owned byte buffer; `none` models a null pointer. -/
structure VCMPacket where
  seqNum : Nat := 0
  timestamp : Nat := 0
  sizeBytes : Nat := 0
  timesNacked : Int := 0
  dataPtr : Option (List Nat) := none
  receive_time_ms : Int := 0
  markerBit : Bool := false
  is_first_packet_in_frame : Bool := false
  is_last_packet_in_frame : Bool := false
  codec : VideoCodecType := .generic
  video_header : VideoHeader := {}
deriving DecidableEq, Repr

/-- `PacketBuffer::ContinuityInfo`: per-slot continuity metadata. -/
structure ContinuityInfo where
  seq_num : Nat := 0
  frame_begin : Bool := false
  frame_end : Bool := false
  continuous : Bool := false
  frame_created : Bool := false
  used : Bool := false
deriving DecidableEq, Repr

/-- The state of a `PacketBuffer`.  `missing_packets_` models the
`std::set` of missing sequence numbers ordered by wraparound
sequence-number order (spec §4.2); it is kept as a duplicate-free list
and all iterator-range operations of the source are expressed through
the `aheadOf` predicates that the set's comparator induces. -/
structure PacketBuffer where
  size_ : Nat
  max_size_ : Nat
  first_seq_num_ : Nat := 0
  first_packet_received_ : Bool := false
  is_cleared_to_first_seq_num_ : Bool := false
  data_buffer_ : List VCMPacket
  sequence_buffer_ : List ContinuityInfo
  missing_packets_ : List Nat := []
  newest_inserted_seq_num_ : Option Nat := none
  last_received_packet_ms_ : Option Int := none
  last_received_keyframe_packet_ms_ : Option Int := none
  unique_frames_seen_ : Nat := 0
  rtp_timestamps_history_set_ : List Nat := []
  rtp_timestamps_history_queue_ : List Nat := []
  sps_pps_idr_is_h264_keyframe_ : Bool := false
deriving DecidableEq, Repr

/-- The constructor `PacketBuffer::PacketBuffer`. -/
def mkPacketBuffer (start_buffer_size max_buffer_size : Nat)
    (spsPpsIdrFlag : Bool) : PacketBuffer :=
  { size_ := start_buffer_size
    max_size_ := max_buffer_size
    data_buffer_ := List.replicate start_buffer_size {}
    sequence_buffer_ := List.replicate start_buffer_size {}
    sps_pps_idr_is_h264_keyframe_ := spsPpsIdrFlag }

/-- Read `sequence_buffer_[i]` (slots out of range read as a default,
never reached under the length invariant). -/
def seqAt (s : PacketBuffer) (i : Nat) : ContinuityInfo :=
  s.sequence_buffer_.getD i {}

/-- Read `data_buffer_[i]`. -/
def dataAt (s : PacketBuffer) (i : Nat) : VCMPacket :=
  s.data_buffer_.getD i {}

/-- Write `sequence_buffer_[i]`. -/
def setSeqSlot (s : PacketBuffer) (i : Nat) (c : ContinuityInfo) : PacketBuffer :=
  { s with sequence_buffer_ := s.sequence_buffer_.set i c }

/-- Write `data_buffer_[i]`. -/
def setDataSlot (s : PacketBuffer) (i : Nat) (p : VCMPacket) : PacketBuffer :=
  { s with data_buffer_ := s.data_buffer_.set i p }

/-- `sequence_buffer_[i].continuous = true`. -/
def markContinuous (s : PacketBuffer) (i : Nat) : PacketBuffer :=
  setSeqSlot s i { seqAt s i with continuous := true }

/-- `sequence_buffer_[i].frame_created = true`. -/
def markCreated (s : PacketBuffer) (i : Nat) : PacketBuffer :=
  setSeqSlot s i { seqAt s i with frame_created := true }

/-- `sequence_buffer_[i].frame_created = false`. -/
def clearCreated (s : PacketBuffer) (i : Nat) : PacketBuffer :=
  setSeqSlot s i { seqAt s i with frame_created := false }

/-- Free slot `i`: `delete[] dataPtr; dataPtr = nullptr; used = false`. -/
def freeSlot (s : PacketBuffer) (i : Nat) : PacketBuffer :=
  let s := setDataSlot s i { dataAt s i with dataPtr := none }
  setSeqSlot s i { seqAt s i with used := false }

/-- `std::set::insert` on the missing-packet set. -/
def msInsert (l : List Nat) (x : Nat) : List Nat :=
  if x ∈ l then l else l ++ [x]

/-- `missing_packets_.upper_bound(seq) != missing_packets_.begin()`:
the wraparound-ordered set holds an entry at or behind `seq`. -/
def hasMissingAtOrBefore (l : List Nat) (seq : Nat) : Bool :=
  l.any (fun e => !aheadOf e seq)

/-- `missing_packets_.erase(begin, upper_bound(seq))`: drop every entry
at or behind `seq`, keeping the entries strictly ahead of it. -/
def msEraseUpTo (l : List Nat) (seq : Nat) : List Nat :=
  l.filter (fun e => aheadOf e seq)

/-- `missing_packets_.erase(begin, lower_bound(old))` from
`UpdateMissingPackets`: drop every entry strictly behind `old`. -/
def msEraseOlderThan (l : List Nat) (old : Nat) : List Nat :=
  l.filter (fun e => !aheadOf old e)

/-- The iterator dance at the end of `PacketBuffer::ClearTo`
(`clear_to_it = upper_bound(seq); if (it != begin) { --it; erase(begin, it); }`):
remove every entry at or behind `seq` except the newest such entry. -/
def clearToTrimMissing (l : List Nat) (seq : Nat) : List Nat :=
  let behind := l.filter (fun e => !aheadOf e seq)
  match behind with
  | [] => l
  | b :: bs =>
    let m := bs.foldl (fun a e => if aheadOf e a then e else a) b
    l.filter (fun e => aheadOf e seq || e == m)

/-- The `while (AheadOf(seq_num, *newest)) { insert; ++*newest; }` loop of
`UpdateMissingPackets`.  Fuel bounds the recursion; the caller passes
`kU16`, which exceeds any possible forward distance. -/
def missingInsertLoop : Nat → Nat → Nat → List Nat → List Nat × Nat
  | 0, newest, _, ms => (ms, newest)
  | fuel + 1, newest, seq, ms =>
    if aheadOf seq newest then
      missingInsertLoop fuel ((newest + 1) % kU16) seq (msInsert ms newest)
    else (ms, newest)

/-- `PacketBuffer::UpdateMissingPackets`. -/
def updateMissingPackets (s : PacketBuffer) (seq_num : Nat) : PacketBuffer :=
  let newest := s.newest_inserted_seq_num_.getD seq_num
  if aheadOf seq_num newest then
    let old_seq_num := (seq_num + kU16 - kMaxPaddingAge) % kU16
    let ms := msEraseOlderThan s.missing_packets_ old_seq_num
    let newest1 := if aheadOf old_seq_num newest then old_seq_num else newest
    let r := missingInsertLoop kU16 ((newest1 + 1) % kU16) seq_num ms
    { s with missing_packets_ := r.1, newest_inserted_seq_num_ := some r.2 }
  else
    { s with missing_packets_ := s.missing_packets_.erase seq_num
             newest_inserted_seq_num_ := some newest }

/-- `PacketBuffer::OnTimestampReceived`. -/
def onTimestampReceived (s : PacketBuffer) (rtp_timestamp : Nat) : PacketBuffer :=
  if rtp_timestamp ∈ s.rtp_timestamps_history_set_ then s
  else
    let s := { s with
      rtp_timestamps_history_set_ := rtp_timestamp :: s.rtp_timestamps_history_set_
      rtp_timestamps_history_queue_ := s.rtp_timestamps_history_queue_ ++ [rtp_timestamp]
      unique_frames_seen_ := s.unique_frames_seen_ + 1 }
    if s.rtp_timestamps_history_set_.length > 1000 then
      match s.rtp_timestamps_history_queue_ with
      | [] => s
      | discarded :: rest =>
        { s with rtp_timestamps_history_set_ := s.rtp_timestamps_history_set_.erase discarded
                 rtp_timestamps_history_queue_ := rest }
    else s

/-- `PacketBuffer::Clear`. -/
def clear (s : PacketBuffer) : PacketBuffer :=
  { s with
    data_buffer_ := s.data_buffer_.map (fun p => { p with dataPtr := none })
    sequence_buffer_ := s.sequence_buffer_.map (fun c => { c with used := false })
    first_packet_received_ := false
    is_cleared_to_first_seq_num_ := false
    last_received_packet_ms_ := none
    last_received_keyframe_packet_ms_ := none
    newest_inserted_seq_num_ := none
    missing_packets_ := [] }

/-- One iteration of the rehash loop of `PacketBuffer::ExpandBufferSize`:
a used slot is relocated to `seq_num % new_size` in the new tables. -/
def rehashStep (s : PacketBuffer) (new_size : Nat)
    (acc : List VCMPacket × List ContinuityInfo) (i : Nat) :
    List VCMPacket × List ContinuityInfo :=
  if (s.sequence_buffer_.getD i {}).used then
    (acc.1.set ((s.sequence_buffer_.getD i {}).seq_num % new_size)
       (s.data_buffer_.getD i {}),
     acc.2.set ((s.sequence_buffer_.getD i {}).seq_num % new_size)
       (s.sequence_buffer_.getD i {}))
  else acc

/-- `PacketBuffer::ExpandBufferSize`: returns the C++ `bool` and the
post state.  The rehash loop `for (i = 0; i < size_; ++i)` is a fold. -/
def expandBufferSize (s : PacketBuffer) : Bool × PacketBuffer :=
  if s.size_ = s.max_size_ then (false, s)
  else
    let new_size := min s.max_size_ (2 * s.size_)
    let r := (List.range s.size_).foldl (rehashStep s new_size)
      (List.replicate new_size {}, List.replicate new_size {})
    (true, { s with size_ := new_size, data_buffer_ := r.1, sequence_buffer_ := r.2 })

/-- The `while (ExpandBufferSize() && sequence_buffer_[seq % size_].used)`
loop of `InsertPacket`.  Each successful expansion strictly grows
`size_`, so `max_size_ + 1` units of fuel always suffice. -/
def expandLoop : Nat → PacketBuffer → Nat → PacketBuffer
  | 0, s, _ => s
  | fuel + 1, s, seq_num =>
    let r := expandBufferSize s
    if r.1 && (seqAt r.2 (seq_num % r.2.size_)).used then
      expandLoop fuel r.2 seq_num
    else r.2

/-- `int prev_index = index > 0 ? index - 1 : size_ - 1;` from
`PacketBuffer::PotentialNewFrame`. -/
def prevIndex (s : PacketBuffer) (index : Nat) : Nat :=
  if index > 0 then index - 1 else s.size_ - 1

/-- `PacketBuffer::PotentialNewFrame`. -/
def potentialNewFrame (s : PacketBuffer) (seq_num : Nat) : Bool :=
  if !(seqAt s (seq_num % s.size_)).used then false
  else if (seqAt s (seq_num % s.size_)).seq_num ≠ seq_num then false
  else if (seqAt s (seq_num % s.size_)).frame_created then false
  else if (seqAt s (seq_num % s.size_)).frame_begin then true
  else if !(seqAt s (prevIndex s (seq_num % s.size_))).used then false
  else if (seqAt s (prevIndex s (seq_num % s.size_))).frame_created then false
  else if (seqAt s (prevIndex s (seq_num % s.size_))).seq_num ≠
      ((seqAt s (seq_num % s.size_)).seq_num + kU16 - 1) % kU16 then false
  else if (dataAt s (prevIndex s (seq_num % s.size_))).timestamp ≠
      (dataAt s (seq_num % s.size_)).timestamp then false
  else if (seqAt s (prevIndex s (seq_num % s.size_))).continuous then true
  else false

/-- `PacketBuffer::GetPacket`. -/
def getPacket (s : PacketBuffer) (seq_num : Nat) : Option VCMPacket :=
  let index := seq_num % s.size_
  if !(seqAt s index).used || seq_num ≠ (seqAt s index).seq_num then none
  else some (dataAt s index)

/-- `GetPacket` with the null case defaulted (the source dereferences the
result unconditionally when building a frame). -/
def getPacketD (s : PacketBuffer) (seq_num : Nat) : VCMPacket :=
  (getPacket s seq_num).getD {}

/-- The `do { memcpy ... } while (index != end)` loop of
`PacketBuffer::GetEncodedImageBuffer`: concatenate the payloads of the
slots from `first_seq_num % size_` up to `last_seq_num % size_`. -/
def encodedImageLoop : Nat → PacketBuffer → Nat → Nat → List Nat
  | 0, _, _, _ => []
  | fuel + 1, s, index, endIdx =>
    let chunk := (dataAt s index).dataPtr.getD []
    let next := (index + 1) % s.size_
    if next = endIdx then chunk
    else chunk ++ encodedImageLoop fuel s next endIdx

/-- `PacketBuffer::GetEncodedImageBuffer` (the assembled payload bytes). -/
def getEncodedImageBuffer (s : PacketBuffer) (first_seq_num last_seq_num : Nat) : List Nat :=
  encodedImageLoop s.size_ s (first_seq_num % s.size_) ((last_seq_num + 1) % s.size_)

/-- The loop body of `PacketBuffer::ClearInterval`. -/
def clearIntervalLoop : Nat → PacketBuffer → Nat → PacketBuffer
  | 0, s, _ => s
  | fuel + 1, s, seq_num =>
    let index := seq_num % s.size_
    clearIntervalLoop fuel (freeSlot s index) ((seq_num + 1) % kU16)

/-- `PacketBuffer::ClearInterval`. -/
def clearInterval (s : PacketBuffer) (start_seq_num stop_seq_num : Nat) : PacketBuffer :=
  clearIntervalLoop (fwdDiff start_seq_num ((stop_seq_num + 1) % kU16)) s start_seq_num

/-- An assembled frame (the `RtpFrameObject` constructor arguments that
the model retains). -/
structure Frame where
  first_seq_num : Nat
  last_seq_num : Nat
  markerBit : Bool
  times_nacked : Int
  min_recv_time : Int
  max_recv_time : Int
  timestamp : Nat
  frame_type : VideoFrameType
  payload : List Nat
  packet_infos : List Int
deriving DecidableEq, Repr

/-- Accumulator of the backward packet-finding loop in `FindFrames`. -/
structure WalkAcc where
  frame_size : Nat := 0
  max_nack_count : Int := -1
  min_recv_time : Int := 0
  max_recv_time : Int := 0
  packet_infos : List Int := []
  has_sps : Bool := false
  has_pps : Bool := false
  has_idr : Bool := false
  is_keyframe : Bool := false
  tested : Nat := 0
deriving DecidableEq, Repr

/-- Outcome of the backward walk: `malformed` models the early
`return found_frames;` on a missing H.264 header or an out-of-range
NAL-unit count; `done` carries the state, the first sequence number of
the frame, the final `start_index` and the accumulator. -/
inductive WalkResult
  | malformed (s : PacketBuffer) (tested : Nat)
  | done (s : PacketBuffer) (startSeq : Nat) (startIndex : Nat) (acc : WalkAcc)
deriving DecidableEq, Repr

/-- The H.264 header inspection of one backward-walk iteration
(`FindFrames` lines guarded by `is_h264 && !is_h264_keyframe`): `none`
models the `return found_frames;` on a malformed header. -/
def h264Step (spsPpsIdrFlag : Bool) (isH264 : Bool) (p : VCMPacket)
    (acc : WalkAcc) : Option WalkAcc :=
  if isH264 && !acc.is_keyframe then
    match p.video_header.video_type_header with
    | none => none
    | some h =>
      if kMaxNalusPerPacket ≤ h.nalus.length then none
      else
        let acc := h.nalus.foldl
          (fun a n =>
            match n with
            | .sps => { a with has_sps := true }
            | .pps => { a with has_pps := true }
            | .idr => { a with has_idr := true }
            | .other => a)
          acc
        if (spsPpsIdrFlag && acc.has_idr && acc.has_sps && acc.has_pps)
            || (!spsPpsIdrFlag && acc.has_idr) then
          some { acc with is_keyframe := true }
        else some acc
  else some acc

/-- The `while (true)` backward walk of `FindFrames` (one iteration per
recursive step).  The source bounds it by `tested_packets == size_`;
fuel is initialised to `size_`, so fuel exhaustion coincides with that
break. -/
def backwardWalk (spsPpsIdrFlag : Bool) (isH264 : Bool) (frameTs : Nat) :
    Nat → PacketBuffer → Nat → Nat → WalkAcc → WalkResult
  | 0, s, startIndex, startSeq, acc => .done s startSeq startIndex acc
  | fuel + 1, s, startIndex, startSeq, acc =>
    let p := dataAt s startIndex
    let acc := { acc with
      tested := acc.tested + 1
      frame_size := acc.frame_size + p.sizeBytes
      max_nack_count := max acc.max_nack_count p.timesNacked
      min_recv_time := min acc.min_recv_time p.receive_time_ms
      max_recv_time := max acc.max_recv_time p.receive_time_ms
      packet_infos := acc.packet_infos ++ [p.receive_time_ms] }
    let s := markCreated s startIndex
    if !isH264 && (seqAt s startIndex).frame_begin then
      .done s startSeq startIndex acc
    else
      match h264Step spsPpsIdrFlag isH264 p acc with
      | none => .malformed s acc.tested
      | some acc =>
        if acc.tested = s.size_ then .done s startSeq startIndex acc
        else
          let startIndex1 := if startIndex > 0 then startIndex - 1 else s.size_ - 1
          if isH264 && (!(seqAt s startIndex1).used
              || (dataAt s startIndex1).timestamp ≠ frameTs) then
            .done s startSeq startIndex1 acc
          else
            backwardWalk spsPpsIdrFlag isH264 frameTs fuel s startIndex1
              ((startSeq + kU16 - 1) % kU16) acc

/-- The backward walk as `FindFrames` launches it from a `frame_end`
slot: fuel `size_`, start index `seq % size_`, and the accumulator
initialised from the `frame_end` packet. -/
def frameWalk (s : PacketBuffer) (seq : Nat) : WalkResult :=
  backwardWalk s.sps_pps_idr_is_h264_keyframe_
    (decide ((dataAt s (seq % s.size_)).codec = VideoCodecType.h264))
    (dataAt s (seq % s.size_)).timestamp
    s.size_ s (seq % s.size_) seq
    { frame_size := 0, max_nack_count := -1
      min_recv_time := (dataAt s (seq % s.size_)).receive_time_ms
      max_recv_time := (dataAt s (seq % s.size_)).receive_time_ms
      packet_infos := [], tested := 0 }

/-- The `while (start_index != stop_index)` un-consume loop of the
H.264 dependency-gap abort in `FindFrames`. -/
def unmarkLoop : Nat → PacketBuffer → Nat → Nat → PacketBuffer
  | 0, s, _, _ => s
  | fuel + 1, s, idx, stopIdx =>
    if idx = stopIdx then s
    else unmarkLoop fuel (clearCreated s idx) ((idx + 1) % s.size_) stopIdx

/-- The H.264 frame-type write of `FindFrames` (lines updating
`data_buffer_[first_packet_index].video_header.frame_type` after the
keyframe classification); the identity for other codecs. -/
def applyFrameTypeWrite (s2 : PacketBuffer) (isH264 : Bool) (startSeq : Nat)
    (isKey : Bool) : PacketBuffer :=
  if isH264 then
    setDataSlot s2 (startSeq % s2.size_)
      { dataAt s2 (startSeq % s2.size_) with
        video_header := { (dataAt s2 (startSeq % s2.size_)).video_header with
          frame_type := if isKey then VideoFrameType.videoFrameKey
                        else VideoFrameType.videoFrameDelta } }
  else s2

/-- Result of `FindFrames`, instrumented with the number of outer-loop
iterations executed and the largest `tested_packets` count any backward
walk reached (both bounds are explicit in the source). -/
structure FindOut where
  state : PacketBuffer
  frames : List Frame
  iters : Nat
  walkMax : Nat
deriving DecidableEq, Repr

/-- The outer `for (i = 0; i < size_ && PotentialNewFrame(seq); ++i)`
loop of `PacketBuffer::FindFrames`, one iteration per recursive step. -/
def findFramesLoop : Nat → PacketBuffer → Nat → List Frame → Nat → Nat → FindOut
  | 0, s, _, found, it, wm => ⟨s, found, it, wm⟩
  | fuel + 1, s, seq, found, it, wm =>
    if !potentialNewFrame s seq then ⟨s, found, it, wm⟩
    else
      let index := seq % s.size_
      let s := markContinuous s index
      if !(seqAt s index).frame_end then
        findFramesLoop fuel s ((seq + 1) % kU16) found (it + 1) wm
      else
        let isH264 : Bool := decide ((dataAt s index).codec = VideoCodecType.h264)
        match frameWalk s seq with
        | .malformed s2 tested => ⟨s2, found, it + 1, max wm tested⟩
        | .done s2 startSeq startIndex acc =>
          let infos := acc.packet_infos.reverse
          let s3 := applyFrameTypeWrite s2 isH264 startSeq acc.is_keyframe
          let h264tid := (dataAt s3 startIndex).video_header.temporal_id
          if isH264 && (h264tid = kNoTemporalIdx) && !acc.is_keyframe
              && hasMissingAtOrBefore s3.missing_packets_ startSeq then
            let stopIdx := (index + 1) % s3.size_
            let s4 := unmarkLoop s3.size_ s3 startIndex stopIdx
            ⟨s4, found, it + 1, max wm acc.tested⟩
          else
            let s5 := { s3 with missing_packets_ := msEraseUpTo s3.missing_packets_ seq }
            let firstp := getPacketD s5 startSeq
            let lastp := getPacketD s5 seq
            let frame : Frame := {
              first_seq_num := startSeq, last_seq_num := seq
              markerBit := lastp.markerBit, times_nacked := acc.max_nack_count
              min_recv_time := acc.min_recv_time, max_recv_time := acc.max_recv_time
              timestamp := firstp.timestamp
              frame_type := firstp.video_header.frame_type
              payload := getEncodedImageBuffer s5 startSeq seq
              packet_infos := infos }
            let s6 := clearInterval s5 startSeq seq
            findFramesLoop fuel s6 ((seq + 1) % kU16) (found ++ [frame]) (it + 1)
              (max wm acc.tested)

/-- `PacketBuffer::FindFrames`, with the instrumentation counters. -/
def findFramesInstr (s : PacketBuffer) (seq_num : Nat) : FindOut :=
  findFramesLoop s.size_ s seq_num [] 0 0

/-- `PacketBuffer::FindFrames`: post state and the found frames. -/
def findFrames (s : PacketBuffer) (seq_num : Nat) : PacketBuffer × List Frame :=
  let o := findFramesInstr s seq_num
  (o.state, o.frames)

/-- Result of `InsertPacket`: the post state, the returned `bool`, and
the frames handed to the assembled-frame callback after lock release. -/
structure InsertResult where
  state : PacketBuffer
  ok : Bool
  frames : List Frame
deriving DecidableEq, Repr

/-- The tail of `InsertPacket` after a free target slot is secured:
populate the slot, update the missing set and the receive timestamps,
and scan for completed frames. -/
def insertPacketFinish (s : PacketBuffer) (packet : VCMPacket) (seq_num : Nat)
    (now_ms : Int) : InsertResult :=
  let index := seq_num % s.size_
  let c : ContinuityInfo := {
    frame_begin := packet.is_first_packet_in_frame
    frame_end := packet.is_last_packet_in_frame
    seq_num := packet.seqNum
    continuous := false
    frame_created := false
    used := true }
  let s := setSeqSlot s index c
  let s := setDataSlot s index packet
  let s := updateMissingPackets s packet.seqNum
  let s := { s with
    last_received_packet_ms_ := some now_ms
    last_received_keyframe_packet_ms_ :=
      if packet.video_header.frame_type = .videoFrameKey then some now_ms
      else s.last_received_keyframe_packet_ms_ }
  let r := findFrames s seq_num
  { state := r.1, ok := true, frames := r.2 }

/-- The duplicate/overflow branch of `InsertPacket` (target slot
occupied). -/
def insertPacketStore (s : PacketBuffer) (packet : VCMPacket) (seq_num : Nat)
    (now_ms : Int) : InsertResult :=
  let index := seq_num % s.size_
  if (seqAt s index).used then
    if (dataAt s index).seqNum = packet.seqNum then
      { state := s, ok := true, frames := [] }
    else
      let s := expandLoop (s.max_size_ + 1) s seq_num
      let index := seq_num % s.size_
      if (seqAt s index).used then
        { state := clear s, ok := false, frames := [] }
      else insertPacketFinish s packet seq_num now_ms
  else insertPacketFinish s packet seq_num now_ms

/-- `PacketBuffer::InsertPacket`.  `now_ms` stands for
`clock_->TimeInMilliseconds()`. -/
def insertPacket (s : PacketBuffer) (packet : VCMPacket) (now_ms : Int) : InsertResult :=
  let s := onTimestampReceived s packet.timestamp
  let seq_num := packet.seqNum
  if !s.first_packet_received_ then
    insertPacketStore
      { s with first_seq_num_ := seq_num, first_packet_received_ := true }
      packet seq_num now_ms
  else if aheadOf s.first_seq_num_ seq_num then
    if s.is_cleared_to_first_seq_num_ then
      { state := s, ok := true, frames := [] }
    else
      insertPacketStore { s with first_seq_num_ := seq_num } packet seq_num now_ms
  else insertPacketStore s packet seq_num now_ms

/-- The slot-freeing loop of `PacketBuffer::ClearTo` (`iterations` steps,
walking `first_seq_num_` forward). -/
def clearToLoop : Nat → PacketBuffer → Nat → PacketBuffer
  | 0, s, _ => s
  | fuel + 1, s, seq_num =>
    let index := s.first_seq_num_ % s.size_
    let s :=
      if aheadOf seq_num (seqAt s index).seq_num then freeSlot s index
      else s
    clearToLoop fuel { s with first_seq_num_ := (s.first_seq_num_ + 1) % kU16 } seq_num

/-- `PacketBuffer::ClearTo`. -/
def clearTo (s : PacketBuffer) (seq_num : Nat) : PacketBuffer :=
  if s.is_cleared_to_first_seq_num_ && aheadOf s.first_seq_num_ seq_num then s
  else if !s.first_packet_received_ then s
  else
    let seq := (seq_num + 1) % kU16
    let diff := fwdDiff s.first_seq_num_ seq
    let iterations := min diff s.size_
    let s := clearToLoop iterations s seq
    let s := { s with first_seq_num_ := seq, is_cleared_to_first_seq_num_ := true }
    { s with missing_packets_ := clearToTrimMissing s.missing_packets_ seq }

/-- `PacketBuffer::PaddingReceived`. -/
def paddingReceived (s : PacketBuffer) (seq_num : Nat) : PacketBuffer × List Frame :=
  let s := updateMissingPackets s seq_num
  findFrames s ((seq_num + 1) % kU16)

/-- Both slot arrays have length `size_`. -/
def lenOK (s : PacketBuffer) : Prop :=
  s.data_buffer_.length = s.size_ ∧ s.sequence_buffer_.length = s.size_

/-- The parallel-array invariant of spec §3: every used slot stores the
same sequence number in its continuity metadata and its payload record. -/
def seqMatch (s : PacketBuffer) : Prop :=
  ∀ i, i < s.size_ → (seqAt s i).used = true →
    (seqAt s i).seq_num = (dataAt s i).seqNum

/-- The placement invariant: a used slot sits at `seq_num % size_` and
stores a 16-bit value. -/
def idxInv (s : PacketBuffer) : Prop :=
  ∀ i, i < s.size_ → (seqAt s i).used = true →
    (seqAt s i).seq_num % s.size_ = i ∧ (seqAt s i).seq_num < kU16

/-- `n` is a power of two (the source `DCHECK`s this of both buffer
sizes at construction). -/
def isPow2 (n : Nat) : Bool :=
  (List.range (n + 1)).any fun k => n == 2 ^ k

/-- The number of used slots whose metadata stores `seq`. -/
def slotCountFor (s : PacketBuffer) (seq : Nat) : Nat :=
  ((List.range s.size_).filter
    (fun i => (seqAt s i).used && (seqAt s i).seq_num = seq)).length

/-- The frame-start-candidate predicate exactly as the specification
words it (spec §4.4): slot used, matches `seq`, not already consumed,
and either the `frame_begin` flag is set or the previous slot is used,
not consumed, sequence-adjacent, has the same capture timestamp, and is
already proven continuous.  Compared against the code's
`potentialNewFrame`. -/
def potentialNewFrameSpec (s : PacketBuffer) (seq_num : Nat) : Prop :=
  (seqAt s (seq_num % s.size_)).used = true ∧
  (seqAt s (seq_num % s.size_)).seq_num = seq_num ∧
  (seqAt s (seq_num % s.size_)).frame_created = false ∧
  ((seqAt s (seq_num % s.size_)).frame_begin = true ∨
    ((seqAt s (prevIndex s (seq_num % s.size_))).used = true ∧
     (seqAt s (prevIndex s (seq_num % s.size_))).frame_created = false ∧
     (seqAt s (prevIndex s (seq_num % s.size_))).seq_num = (seq_num + kU16 - 1) % kU16 ∧
     (dataAt s (prevIndex s (seq_num % s.size_))).timestamp =
       (dataAt s (seq_num % s.size_)).timestamp ∧
     (seqAt s (prevIndex s (seq_num % s.size_))).continuous = true))

/-- A generic video packet used by the concrete example states. -/
def examplePacket (seq ts : Nat) (fb fe : Bool) (payload : List Nat) : VCMPacket :=
  { seqNum := seq, timestamp := ts, sizeBytes := payload.length
    dataPtr := some payload
    is_first_packet_in_frame := fb, is_last_packet_in_frame := fe }

/-- A single-packet H.264 frame with a chosen codec header and
`frame_marking.temporal_id`. -/
def exampleH264Packet (seq ts : Nat) (hdr : Option H264Header) (tid : Nat) : VCMPacket :=
  { seqNum := seq, timestamp := ts, sizeBytes := 1, dataPtr := some [9]
    is_first_packet_in_frame := true, is_last_packet_in_frame := true
    codec := .h264
    video_header := { video_type_header := hdr, temporal_id := tid } }

/-- A 16-slot buffer that has already received a packet; example state
for the `ClearTo` claims. -/
def exClearTo : PacketBuffer :=
  { mkPacketBuffer 16 16 false with first_packet_received_ := true }

/-- Example state for the malformed-header abort: a 2-slot buffer whose
slot 1 holds a complete single-packet H.264 frame with no codec header. -/
def exMalformed : PacketBuffer :=
  setDataSlot
    (setSeqSlot (mkPacketBuffer 2 2 false) 1
      { seq_num := 1, frame_begin := true, frame_end := true, used := true })
    1 (exampleH264Packet 1 100 none kNoTemporalIdx)

/-- Example state for the dependency-gap check: slot 2 holds a complete
single-packet non-keyframe H.264 frame, the missing set records a gap at
sequence number 0, and the slot the backward walk stops on (slot 1,
unused) carries `temporal_id = 0` in its stale payload record. -/
def exTemporal : PacketBuffer :=
  let b := mkPacketBuffer 4 4 false
  let b := setSeqSlot b 2
    { seq_num := 2, frame_begin := true, frame_end := true, used := true }
  let b := setDataSlot b 2 (exampleH264Packet 2 100 (some { nalus := [] }) kNoTemporalIdx)
  let b := setDataSlot b 1
    { exampleH264Packet 1 50 none 0 with dataPtr := none }
  { b with missing_packets_ := [0] }

/-- `exTemporal` with `kNoTemporalIdx` on the walk-stop slot instead:
the configuration the dependency-gap abort actually fires on. -/
def exTemporalGap : PacketBuffer :=
  setDataSlot exTemporal 1
    { exampleH264Packet 1 50 none kNoTemporalIdx with dataPtr := none }

/-- Example state for `UpdateMissingPackets`: newest seen is 0. -/
def exMissingJump : PacketBuffer :=
  { mkPacketBuffer 16 16 false with newest_inserted_seq_num_ := some 0 }

/-- A 4/8 buffer holding one packet with sequence number 1; example
state for the duplicate-insertion claim. -/
def exDup : PacketBuffer :=
  setDataSlot
    (setSeqSlot (mkPacketBuffer 4 8 false) 1
      { seq_num := 1, frame_begin := false, frame_end := false, used := true })
    1 (examplePacket 1 100 false false [3])

/-- Inserting sequence numbers `0..count-1` as distinct non-completing
packets (no frame boundaries), starting from a 4/16 buffer. -/
def growthScenario : Nat → InsertResult
  | 0 => { state := mkPacketBuffer 4 16 false, ok := true, frames := [] }
  | n + 1 =>
    let r := growthScenario n
    insertPacket r.state (examplePacket n 100 false false [n]) 0

/-- Number of forward hops from index `a` to index `b` on a ring of
`size` slots (inputs below `size`). -/
def idxHops (size a b : Nat) : Nat := (b + size - a) % size

/-- The well-formedness package for the invariant claim: both arrays
have length `size_`, every used slot's metadata and payload agree on
the sequence number, and the capacity is a power of two between the
start capacity and the max capacity (itself a power of two). -/
def goodState (start : Nat) (t : PacketBuffer) : Prop :=
  t.data_buffer_.length = t.size_ ∧
  t.sequence_buffer_.length = t.size_ ∧
  seqMatch t ∧
  isPow2 t.size_ = true ∧
  isPow2 t.max_size_ = true ∧
  start ≤ t.size_ ∧
  t.size_ ≤ t.max_size_

/-!  Theorems.  -/

theorem getD_set_self {α : Type} (l : List α) (i : Nat) (x d : α)
    (h : i < l.length) : (l.set i x).getD i d = x := by
  induction l generalizing i with
  | nil => simp at h
  | cons a t ih =>
    cases i with
    | zero => rfl
    | succ j => simpa using ih j (by simpa using h)

theorem getD_set_ne {α : Type} (l : List α) (i j : Nat) (x d : α)
    (h : i ≠ j) : (l.set i x).getD j d = l.getD j d := by
  induction l generalizing i j with
  | nil => rfl
  | cons a t ih =>
    cases i with
    | zero =>
      cases j with
      | zero => exact absurd rfl h
      | succ k => rfl
    | succ i2 =>
      cases j with
      | zero => rfl
      | succ k => simpa using ih i2 k (by omega)

theorem getD_replicate {α : Type} (n i : Nat) (a d : α) :
    (List.replicate n a).getD i d = if i < n then a else d := by
  induction n generalizing i with
  | zero => simp [List.replicate]
  | succ m ih =>
    cases i with
    | zero => simp [List.replicate]
    | succ j =>
      simp only [List.replicate, List.getD_cons_succ, Nat.succ_lt_succ_iff]
      exact ih j

theorem fwdDiff_lt (a b : Nat) : fwdDiff a b < kU16 := by
  simp only [fwdDiff, kU16]
  omega

theorem aheadOf_iff (a b : Nat) :
    aheadOf a b = true ↔
      (0 < fwdDiff b a ∧ fwdDiff b a < 32768) ∨
      (fwdDiff b a = 32768 ∧ b % kU16 < a % kU16) := by
  unfold aheadOf
  split_ifs with h1 h2 h3 <;> simp <;> omega

theorem onTimestampReceived_core (s : PacketBuffer) (ts : Nat) :
    ∃ a b c, onTimestampReceived s ts =
      { s with rtp_timestamps_history_set_ := a
               rtp_timestamps_history_queue_ := b
               unique_frames_seen_ := c } := by
  unfold onTimestampReceived
  split
  · exact ⟨_, _, _, rfl⟩
  · dsimp only
    split
    · split
      · exact ⟨_, _, _, rfl⟩
      · exact ⟨_, _, _, rfl⟩
    · exact ⟨_, _, _, rfl⟩

/-- `C2`: `PotentialNewFrame(seq)` holds exactly when the slot at
`seq mod capacity` is used, stores `seq`, is not consumed, and either
has `frame_begin` set or its predecessor slot is used, unconsumed,
sequence-adjacent modulo `2^16`, same-timestamped, and continuous. -/
theorem c2_potential_new_frame (s : PacketBuffer) (seq_num : Nat) :
    potentialNewFrame s seq_num = true ↔ potentialNewFrameSpec s seq_num := by
  unfold potentialNewFrame potentialNewFrameSpec
  split_ifs with h1 h2 h3 h4 h5 h6 h7 h8 h9
  · simp only [Bool.not_eq_true'] at h1
    simp [h1]
  · simp [h2]
  · simp [h3]
  · simp at h1 h2 h3
    simp [h1, h2, h3, h4]
  · simp at h4 h5
    simp [h4, h5]
  · simp at h4
    simp [h4, h6]
  · simp at h2 h4
    rw [h2] at h7
    simp [h4, h7]
  · simp at h4
    simp [h4, h8]
  · simp at h1 h2 h3 h4 h5 h6 h8
    rw [h2, not_ne_iff] at h7
    simp [h1, h2, h3, h4, h5, h6, h7, h8, h9]
  · simp at h4 h9
    simp [h4, h9]

/-- `C10`: a packet behind the first-sequence-number marker after an
explicit `ClearTo` is silently ignored: `InsertPacket` returns `true`,
emits no frames, stores nothing, and leaves the buffer content and the
missing set untouched. -/
theorem c10_stale_packet_ignored (s : PacketBuffer) (p : VCMPacket) (now : Int)
    (h1 : s.first_packet_received_ = true)
    (h2 : s.is_cleared_to_first_seq_num_ = true)
    (h3 : aheadOf s.first_seq_num_ p.seqNum = true) :
    (insertPacket s p now).ok = true ∧
    (insertPacket s p now).frames = [] ∧
    (insertPacket s p now).state.sequence_buffer_ = s.sequence_buffer_ ∧
    (insertPacket s p now).state.data_buffer_ = s.data_buffer_ ∧
    (insertPacket s p now).state.missing_packets_ = s.missing_packets_ ∧
    (insertPacket s p now).state.first_seq_num_ = s.first_seq_num_ ∧
    (insertPacket s p now).state.newest_inserted_seq_num_ = s.newest_inserted_seq_num_ ∧
    (insertPacket s p now).state.last_received_packet_ms_ = s.last_received_packet_ms_ := by
  obtain ⟨a, b, c, hcore⟩ := onTimestampReceived_core s p.timestamp
  unfold insertPacket
  rw [hcore]
  simp [h1, h2, h3]

/-- `C10` witness: the stale-ignore path at a concrete state. -/
theorem c10_witness :
    (insertPacket
        { exClearTo with is_cleared_to_first_seq_num_ := true, first_seq_num_ := 40 }
        (examplePacket 5 100 false false [1]) 0).ok = true ∧
    (insertPacket
        { exClearTo with is_cleared_to_first_seq_num_ := true, first_seq_num_ := 40 }
        (examplePacket 5 100 false false [1]) 0).frames = [] := by
  have h := c10_stale_packet_ignored
    { exClearTo with is_cleared_to_first_seq_num_ := true, first_seq_num_ := 40 }
    (examplePacket 5 100 false false [1]) 0 (by decide) (by decide) (by decide)
  exact ⟨h.1, h.2.1⟩

/-- `C8` counterexample: after `ClearTo(10)` on a fresh 16-slot buffer
that has received a packet, the sequence number `32779` is behind `10`
in wraparound order, yet `ClearTo(32779)` is not a no-op: it moves the
first-sequence-number marker from `11` to `32780`. -/
theorem c8_counterexample :
    aheadOf 10 32779 = true ∧
    (clearTo exClearTo 10).first_seq_num_ = 11 ∧
    (clearTo (clearTo exClearTo 10) 32779).first_seq_num_ = 32780 ∧
    clearTo (clearTo exClearTo 10) 32779 ≠ clearTo exClearTo 10 := by
  refine ⟨by decide, by decide, by decide, ?_⟩
  intro h
  have := congrArg PacketBuffer.first_seq_num_ h
  rw [show (clearTo (clearTo exClearTo 10) 32779).first_seq_num_ = 32780 from by decide,
    show (clearTo exClearTo 10).first_seq_num_ = 11 from by decide] at this
  omega

theorem clearToLoop_received (fuel : Nat) : ∀ (s : PacketBuffer) (q : Nat),
    (clearToLoop fuel s q).first_packet_received_ = s.first_packet_received_ := by
  induction fuel with
  | zero =>
    intro s q
    rfl
  | succ f ih =>
    intro s q
    rw [clearToLoop]
    rw [ih]
    split <;> rfl

/-- `C8` amended: `ClearTo` is a no-op on every state already cleared to
a first sequence number that is ahead of the argument; consequently,
when `ClearTo(N)` runs its main path (the buffer has received a packet
and was not already cleared past `N`), leaving the marker at
`(N+1) mod 2^16`, a second `ClearTo(M)` is a no-op exactly when
`(N+1) mod 2^16` is `AheadOf` `M` in 16-bit wraparound order; for every
other `M` the second call runs the main path again, moving the
first-sequence-number marker to `(M+1) mod 2^16` and changing the
state. -/
theorem c8_clearto_idempotent :
    (∀ s m, s.is_cleared_to_first_seq_num_ = true →
      aheadOf s.first_seq_num_ m = true → clearTo s m = s) ∧
    (∀ s n m, s.first_packet_received_ = true →
      ¬(s.is_cleared_to_first_seq_num_ = true ∧ aheadOf s.first_seq_num_ n = true) →
      aheadOf ((n + 1) % kU16) m = true →
      clearTo (clearTo s n) m = clearTo s n) ∧
    (∀ s n m, s.first_packet_received_ = true →
      ¬(s.is_cleared_to_first_seq_num_ = true ∧ aheadOf s.first_seq_num_ n = true) →
      aheadOf ((n + 1) % kU16) m = false →
      (clearTo (clearTo s n) m).first_seq_num_ = (m + 1) % kU16 ∧
      clearTo (clearTo s n) m ≠ clearTo s n) := by
  have noop : ∀ s m, s.is_cleared_to_first_seq_num_ = true →
      aheadOf s.first_seq_num_ m = true → clearTo s m = s := by
    intro s m h1 h2
    unfold clearTo
    simp [h1, h2]
  have hfields : ∀ s n, s.first_packet_received_ = true →
      ¬(s.is_cleared_to_first_seq_num_ = true ∧ aheadOf s.first_seq_num_ n = true) →
      (clearTo s n).is_cleared_to_first_seq_num_ = true ∧
      (clearTo s n).first_seq_num_ = (n + 1) % kU16 ∧
      (clearTo s n).first_packet_received_ = true := by
    intro s n hrecv hc
    unfold clearTo
    split_ifs with hc1 hc2
    · rw [Bool.and_eq_true] at hc1
      exact absurd hc1 hc
    · simp [hrecv] at hc2
    · refine ⟨rfl, rfl, ?_⟩
      show (clearToLoop _ s _).first_packet_received_ = true
      rw [clearToLoop_received]
      exact hrecv
  refine ⟨noop, ?_, ?_⟩
  · intro s n m hrecv hc hm
    exact noop _ m (hfields s n hrecv hc).1 ((hfields s n hrecv hc).2.1 ▸ hm)
  · intro s n m hrecv hc hm
    obtain ⟨hcl, hfs, hfp⟩ := hfields s n hrecv hc
    have hgen : ∀ t : PacketBuffer, t.is_cleared_to_first_seq_num_ = true →
        t.first_seq_num_ = (n + 1) % kU16 → t.first_packet_received_ = true →
        (clearTo t m).first_seq_num_ = (m + 1) % kU16 := by
      intro t tcl tfs tfp
      unfold clearTo
      rw [if_neg (by
        intro hcon
        rw [Bool.and_eq_true] at hcon
        rw [tfs, hm] at hcon
        cases hcon.2)]
      rw [if_neg (by
        intro hcon
        rw [tfp] at hcon
        cases hcon)]
    have hmain : (clearTo (clearTo s n) m).first_seq_num_ = (m + 1) % kU16 :=
      hgen (clearTo s n) hcl hfs hfp
    refine ⟨hmain, ?_⟩
    intro heq
    have hproj := congrArg PacketBuffer.first_seq_num_ heq
    rw [hmain, hfs] at hproj
    have hahead : aheadOf ((n + 1) % kU16) m = true := by
      rw [aheadOf_iff]
      left
      have h1 : fwdDiff m ((m + 1) % kU16) = 1 := by
        simp only [fwdDiff, kU16]
        omega
      rw [← hproj, h1]
      omega
    rw [hm] at hahead
    cases hahead

/-- `C8` witness: the amended characterization at concrete states — the
no-op direction at `N = 10`, `M = 5`, and the marker-moving direction at
the wraparound boundary `N = 40000`, `M = 7232`. -/
theorem c8_witness :
    clearTo (clearTo exClearTo 10) 5 = clearTo exClearTo 10 ∧
    (clearTo (clearTo exClearTo 40000) 7232).first_seq_num_ = (7232 + 1) % kU16 ∧
    clearTo (clearTo exClearTo 40000) 7232 ≠ clearTo exClearTo 40000 :=
  ⟨c8_clearto_idempotent.2.1 exClearTo 10 5 (by decide) (by decide) (by decide),
   (c8_clearto_idempotent.2.2 exClearTo 40000 7232 (by decide) (by decide) (by decide)).1,
   (c8_clearto_idempotent.2.2 exClearTo 40000 7232 (by decide) (by decide) (by decide)).2⟩

theorem clear_used (s : PacketBuffer) (i : Nat) :
    (seqAt (clear s) i).used = false := by
  show (((s.sequence_buffer_.map fun c => { c with used := false }).getD i
      ({} : ContinuityInfo))).used = false
  induction s.sequence_buffer_ generalizing i with
  | nil => cases i <;> rfl
  | cons a t ih =>
    cases i with
    | zero => rfl
    | succ j => simpa using ih j

theorem expandBufferSize_at_max (s : PacketBuffer) (h : s.size_ = s.max_size_) :
    expandBufferSize s = (false, s) := by
  unfold expandBufferSize
  rw [if_pos h]

theorem expandBufferSize_grow (s : PacketBuffer) (h : s.size_ ≠ s.max_size_) :
    (expandBufferSize s).1 = true ∧
    (expandBufferSize s).2.size_ = min s.max_size_ (2 * s.size_) ∧
    (expandBufferSize s).2.max_size_ = s.max_size_ := by
  unfold expandBufferSize
  rw [if_neg h]
  exact ⟨rfl, rfl, rfl⟩

theorem expandLoop_max (fuel : Nat) (s : PacketBuffer) (q : Nat) :
    (expandLoop fuel s q).max_size_ = s.max_size_ := by
  induction fuel generalizing s with
  | zero => rfl
  | succ f ih =>
    simp only [expandLoop]
    by_cases heq : s.size_ = s.max_size_
    · rw [expandBufferSize_at_max s heq]
      rfl
    · obtain ⟨hg1, hg2, hg3⟩ := expandBufferSize_grow s heq
      rw [hg1, Bool.true_and]
      by_cases hu2 : (seqAt (expandBufferSize s).2
          (q % (expandBufferSize s).2.size_)).used = true
      · rw [if_pos hu2, ih (expandBufferSize s).2, hg3]
      · rw [if_neg hu2, hg3]

theorem expandLoop_size_of_used (fuel : Nat) (s : PacketBuffer) (q : Nat)
    (h1 : 1 ≤ s.size_) (h2 : s.size_ ≤ s.max_size_)
    (h3 : s.max_size_ < s.size_ + fuel)
    (hu : (seqAt (expandLoop fuel s q) (q % (expandLoop fuel s q).size_)).used = true) :
    (expandLoop fuel s q).size_ = s.max_size_ := by
  induction fuel generalizing s with
  | zero =>
    simp only [expandLoop]
    omega
  | succ f ih =>
    simp only [expandLoop] at hu ⊢
    by_cases heq : s.size_ = s.max_size_
    · rw [expandBufferSize_at_max s heq, Bool.false_and, if_neg (by simp)] at hu ⊢
      exact heq
    · obtain ⟨hg1, hg2, hg3⟩ := expandBufferSize_grow s heq
      rw [hg1, Bool.true_and] at hu ⊢
      by_cases hu2 : (seqAt (expandBufferSize s).2
          (q % (expandBufferSize s).2.size_)).used = true
      · rw [if_pos hu2] at hu ⊢
        rw [← hg3]
        exact ih (expandBufferSize s).2 (by omega) (by omega) (by omega) hu
      · rw [if_neg hu2] at hu ⊢
        exact absurd hu hu2

theorem slotCountFor_one (s : PacketBuffer) (q : Nat) (hidx : idxInv s)
    (hsz : 1 ≤ s.size_)
    (h1 : (seqAt s (q % s.size_)).used = true)
    (h2 : (seqAt s (q % s.size_)).seq_num = q) :
    slotCountFor s q = 1 := by
  unfold slotCountFor
  rw [← List.countP_eq_length_filter]
  have hcong : ∀ i ∈ List.range s.size_,
      (((seqAt s i).used && decide ((seqAt s i).seq_num = q)) = true ↔
      (i == q % s.size_) = true) := by
    intro i hi
    rw [List.mem_range] at hi
    by_cases hiq : i = q % s.size_
    · subst hiq
      simp [h1, h2]
    · constructor
      · intro hpred
        rw [Bool.and_eq_true, decide_eq_true_eq] at hpred
        have hii := (hidx i hi hpred.1).1
        rw [hpred.2] at hii
        exact absurd hii.symm hiq
      · intro hx
        exact absurd (by simpa using hx) hiq
  rw [List.countP_congr hcong]
  have : List.countP (fun i => i == q % s.size_) (List.range s.size_) =
      List.count (q % s.size_) (List.range s.size_) := rfl
  rw [this, List.count_eq_one_of_mem (List.nodup_range _)
    (List.mem_range.mpr (Nat.mod_lt _ hsz))]

theorem insertPacketFinish_ok (s : PacketBuffer) (p : VCMPacket) (q : Nat) (now : Int) :
    (insertPacketFinish s p q now).ok = true := rfl

theorem insertPacketStore_contract (s : PacketBuffer) (p : VCMPacket) (now : Int)
    (hsz : 1 ≤ s.size_) (hmax : s.size_ ≤ s.max_size_) :
    ((insertPacketStore s p p.seqNum now).ok = false →
      (seqAt s (p.seqNum % s.size_)).used = true ∧
      (dataAt s (p.seqNum % s.size_)).seqNum ≠ p.seqNum ∧
      (insertPacketStore s p p.seqNum now).state.size_ = s.max_size_ ∧
      (∀ i, (seqAt (insertPacketStore s p p.seqNum now).state i).used = false) ∧
      (insertPacketStore s p p.seqNum now).frames = []) ∧
    ((seqAt s (p.seqNum % s.size_)).used = true →
      (dataAt s (p.seqNum % s.size_)).seqNum = p.seqNum →
      insertPacketStore s p p.seqNum now = { state := s, ok := true, frames := [] }) := by
  unfold insertPacketStore
  dsimp only
  by_cases hu : (seqAt s (p.seqNum % s.size_)).used = true
  · rw [if_pos hu]
    by_cases hd : (dataAt s (p.seqNum % s.size_)).seqNum = p.seqNum
    · rw [if_pos hd]
      refine ⟨fun h => ?_, fun _ _ => rfl⟩
      simp at h
    · rw [if_neg hd]
      by_cases hu2 : (seqAt (expandLoop (s.max_size_ + 1) s p.seqNum)
          (p.seqNum % (expandLoop (s.max_size_ + 1) s p.seqNum).size_)).used = true
      · rw [if_pos hu2]
        refine ⟨fun _ => ⟨hu, hd, ?_, fun i => clear_used _ i, rfl⟩,
          fun _ hdd => absurd hdd hd⟩
        show (expandLoop (s.max_size_ + 1) s p.seqNum).size_ = s.max_size_
        exact expandLoop_size_of_used _ s _ hsz hmax (by omega) hu2
      · rw [if_neg hu2]
        refine ⟨fun h => ?_, fun _ hdd => absurd hdd hd⟩
        rw [insertPacketFinish_ok] at h
        cases h
  · rw [if_neg hu]
    refine ⟨fun h => ?_, fun huu _ => absurd huu hu⟩
    rw [insertPacketFinish_ok] at h
    cases h

/-- `C1`: `InsertPacket` returns `false` only on overflow — a slot
collision that survives growth to max capacity — in which case the
whole buffer is cleared (zero used slots) and no frames are emitted;
in particular a duplicate (target slot already storing the packet's
sequence number) frees the payload, changes no slot, returns `true`,
and leaves exactly one stored slot for that sequence number. -/
theorem c1_insert_return_contract (s : PacketBuffer) (p : VCMPacket) (now : Int)
    (hsz : 1 ≤ s.size_) (hmax : s.size_ ≤ s.max_size_)
    (hidx : idxInv s) (hmatch : seqMatch s) :
    ((insertPacket s p now).ok = false →
      (seqAt s (p.seqNum % s.size_)).used = true ∧
      (dataAt s (p.seqNum % s.size_)).seqNum ≠ p.seqNum ∧
      (insertPacket s p now).state.size_ = s.max_size_ ∧
      (∀ i, (seqAt (insertPacket s p now).state i).used = false) ∧
      (insertPacket s p now).frames = []) ∧
    ((seqAt s (p.seqNum % s.size_)).used = true →
      (dataAt s (p.seqNum % s.size_)).seqNum = p.seqNum →
      (insertPacket s p now).ok = true ∧
      (insertPacket s p now).frames = [] ∧
      (insertPacket s p now).state.sequence_buffer_ = s.sequence_buffer_ ∧
      (insertPacket s p now).state.data_buffer_ = s.data_buffer_ ∧
      slotCountFor (insertPacket s p now).state p.seqNum = 1) := by
  obtain ⟨a, b, c, hcore⟩ := onTimestampReceived_core s p.timestamp
  have hcount : (seqAt s (p.seqNum % s.size_)).used = true →
      (dataAt s (p.seqNum % s.size_)).seqNum = p.seqNum →
      slotCountFor s p.seqNum = 1 := by
    intro huu hdd
    have hm := hmatch (p.seqNum % s.size_) (Nat.mod_lt _ hsz) huu
    rw [hdd] at hm
    exact slotCountFor_one s p.seqNum hidx hsz huu hm
  unfold insertPacket
  rw [hcore]
  dsimp only
  by_cases hfp : s.first_packet_received_ = true
  · rw [if_neg (by simp [hfp])]
    by_cases ha : aheadOf s.first_seq_num_ p.seqNum = true
    · rw [if_pos ha]
      by_cases hcl : s.is_cleared_to_first_seq_num_ = true
      · rw [if_pos hcl]
        exact ⟨fun h => by simp at h, fun huu hdd => ⟨rfl, rfl, rfl, rfl, hcount huu hdd⟩⟩
      · rw [if_neg hcl]
        have hc := insertPacketStore_contract
          { s with rtp_timestamps_history_set_ := a
                   rtp_timestamps_history_queue_ := b
                   unique_frames_seen_ := c
                   first_seq_num_ := p.seqNum } p now hsz hmax
        refine ⟨fun h => hc.1 h, fun huu hdd => ?_⟩
        rw [hc.2 huu hdd]
        exact ⟨rfl, rfl, rfl, rfl, hcount huu hdd⟩
    · rw [if_neg ha]
      have hc := insertPacketStore_contract
        { s with rtp_timestamps_history_set_ := a
                 rtp_timestamps_history_queue_ := b
                 unique_frames_seen_ := c } p now hsz hmax
      refine ⟨fun h => hc.1 h, fun huu hdd => ?_⟩
      rw [hc.2 huu hdd]
      exact ⟨rfl, rfl, rfl, rfl, hcount huu hdd⟩
  · rw [if_pos (by simp [hfp])]
    have hc := insertPacketStore_contract
      { s with rtp_timestamps_history_set_ := a
               rtp_timestamps_history_queue_ := b
               unique_frames_seen_ := c
               first_seq_num_ := p.seqNum
               first_packet_received_ := true } p now hsz hmax
    refine ⟨fun h => hc.1 h, fun huu hdd => ?_⟩
    rw [hc.2 huu hdd]
    exact ⟨rfl, rfl, rfl, rfl, hcount huu hdd⟩

theorem isPow2_iff (n : Nat) : isPow2 n = true ↔ ∃ k, n = 2 ^ k := by
  unfold isPow2
  rw [List.any_eq_true]
  constructor
  · rintro ⟨k, _, he⟩
    exact ⟨k, by simpa using he⟩
  · rintro ⟨k, rfl⟩
    exact ⟨k, List.mem_range.mpr (by have := Nat.lt_two_pow k; omega), by simp⟩

theorem isPow2_pos (n : Nat) (h : isPow2 n = true) : 0 < n := by
  obtain ⟨k, rfl⟩ := (isPow2_iff n).mp h
  exact Nat.pow_pos (by omega)

theorem isPow2_double_le (b a : Nat) (ha : isPow2 a = true)
    (hb : isPow2 b = true) (hab : a < b) : 2 * a ≤ b := by
  obtain ⟨i, rfl⟩ := (isPow2_iff a).mp ha
  obtain ⟨j, rfl⟩ := (isPow2_iff b).mp hb
  have hij : i + 1 ≤ j := by
    by_contra hle
    push_neg at hle
    exact absurd hab (not_lt.mpr (Nat.pow_le_pow_right (by omega) (by omega)))
  calc 2 * 2 ^ i = 2 ^ (i + 1) := by ring
    _ ≤ 2 ^ j := Nat.pow_le_pow_right (by omega) hij

theorem isPow2_two_mul (n : Nat) (h : isPow2 n = true) : isPow2 (2 * n) = true := by
  obtain ⟨k, rfl⟩ := (isPow2_iff n).mp h
  exact (isPow2_iff _).mpr ⟨k + 1, by ring⟩

theorem rehashFold_spec (s : PacketBuffer) (ns : Nat) (hlen : lenOK s)
    (hidx : idxInv s) (hdvd : s.size_ ∣ ns) (hns : 0 < ns) :
    ∀ k, k ≤ s.size_ →
    ((List.range k).foldl (rehashStep s ns)
        (List.replicate ns {}, List.replicate ns {})).1.length = ns ∧
    ((List.range k).foldl (rehashStep s ns)
        (List.replicate ns {}, List.replicate ns {})).2.length = ns ∧
    ∀ j, j < k → (seqAt s j).used = true →
      ((List.range k).foldl (rehashStep s ns)
          (List.replicate ns {}, List.replicate ns {})).2.getD
        ((seqAt s j).seq_num % ns) {} = seqAt s j ∧
      ((List.range k).foldl (rehashStep s ns)
          (List.replicate ns {}, List.replicate ns {})).1.getD
        ((seqAt s j).seq_num % ns) {} = dataAt s j := by
  intro k
  induction k with
  | zero =>
    intro _
    refine ⟨List.length_replicate _ _, List.length_replicate _ _, ?_⟩
    intro j hj
    omega
  | succ k ih =>
    intro hk
    obtain ⟨pl1, pl2, pspec⟩ := ih (by omega)
    rw [List.range_succ, List.foldl_append, List.foldl_cons, List.foldl_nil]
    have hdistinct : ∀ j, j < k → (seqAt s j).used = true →
        (seqAt s k).used = true →
        (seqAt s j).seq_num % ns ≠ (seqAt s k).seq_num % ns := by
      intro j hj hju hku
      have hj1 := (hidx j (by omega) hju).1
      have hk1 := (hidx k (by omega) hku).1
      intro hcon
      have hm1 : (seqAt s j).seq_num % ns % s.size_ = (seqAt s j).seq_num % s.size_ :=
        Nat.mod_mod_of_dvd _ hdvd
      have hm2 : (seqAt s k).seq_num % ns % s.size_ = (seqAt s k).seq_num % s.size_ :=
        Nat.mod_mod_of_dvd _ hdvd
      rw [hcon, hm2] at hm1
      omega
    have hstep : rehashStep s ns
        ((List.range k).foldl (rehashStep s ns)
          (List.replicate ns {}, List.replicate ns {})) k =
        if (seqAt s k).used = true then
          (((List.range k).foldl (rehashStep s ns)
              (List.replicate ns {}, List.replicate ns {})).1.set
            ((seqAt s k).seq_num % ns) (dataAt s k),
           ((List.range k).foldl (rehashStep s ns)
              (List.replicate ns {}, List.replicate ns {})).2.set
            ((seqAt s k).seq_num % ns) (seqAt s k))
        else ((List.range k).foldl (rehashStep s ns)
          (List.replicate ns {}, List.replicate ns {})) := by
      simp only [rehashStep, seqAt, dataAt]
    rw [hstep]
    by_cases hku : (seqAt s k).used = true
    · rw [if_pos hku]
      refine ⟨by simpa using pl1, by simpa using pl2, ?_⟩
      intro j hj hju
      by_cases hjk : j = k
      · subst hjk
        constructor
        · rw [getD_set_self _ _ _ _ (by rw [pl2]; exact Nat.mod_lt _ hns)]
        · rw [getD_set_self _ _ _ _ (by rw [pl1]; exact Nat.mod_lt _ hns)]
      · have hjlt : j < k := by omega
        have hne := hdistinct j hjlt hju hku
        constructor
        · rw [getD_set_ne _ _ _ _ _ (fun h => hne h.symm)]
          exact (pspec j hjlt hju).1
        · rw [getD_set_ne _ _ _ _ _ (fun h => hne h.symm)]
          exact (pspec j hjlt hju).2
    · rw [if_neg hku]
      refine ⟨pl1, pl2, ?_⟩
      intro j hj hju
      by_cases hjk : j = k
      · subst hjk
        exact absurd hju hku
      · exact pspec j (by omega) hju

/-- `C3`: with capacity strictly below max capacity (both powers of
two), `ExpandBufferSize` doubles the capacity and relocates every used
slot, metadata and payload intact, to `seq_num mod new_capacity`; and
inserting `start_capacity + 1` distinct non-completing packets triggers
exactly one doubling with every previously inserted packet still
retrievable. -/
theorem c3_growth_preserves_data (s : PacketBuffer)
    (hlen : lenOK s) (hidx : idxInv s)
    (hp2s : isPow2 s.size_ = true) (hp2m : isPow2 s.max_size_ = true)
    (hlt : s.size_ < s.max_size_) :
    ((expandBufferSize s).1 = true ∧
     (expandBufferSize s).2.size_ = 2 * s.size_ ∧
     (∀ j, j < s.size_ → (seqAt s j).used = true →
       seqAt (expandBufferSize s).2 ((seqAt s j).seq_num % (2 * s.size_)) = seqAt s j ∧
       dataAt (expandBufferSize s).2 ((seqAt s j).seq_num % (2 * s.size_)) = dataAt s j)) ∧
    ((growthScenario 4).state.size_ = 4 ∧
     (growthScenario 5).state.size_ = 8 ∧
     ∀ k, k < 5 → getPacket (growthScenario 5).state k =
       some (examplePacket k 100 false false [k])) := by
  have hmin : min s.max_size_ (2 * s.size_) = 2 * s.size_ :=
    Nat.min_eq_right (isPow2_double_le s.max_size_ s.size_ hp2s hp2m hlt)
  have hfold := rehashFold_spec s (2 * s.size_) hlen hidx ⟨2, by ring⟩
    (by have := isPow2_pos _ hp2s; omega) s.size_ (Nat.le_refl _)
  refine ⟨?_, by decide⟩
  unfold expandBufferSize
  rw [if_neg (by omega)]
  dsimp only
  rw [hmin]
  exact ⟨rfl, rfl, fun j hj hju =>
    ⟨(hfold.2.2 j hj hju).1, (hfold.2.2 j hj hju).2⟩⟩

/-- `C3` witness: doubling a concrete 4/8 buffer holding one packet
keeps that packet's slot at its sequence number's new index. -/
theorem c3_witness :
    (expandBufferSize exDup).1 = true ∧
    (expandBufferSize exDup).2.size_ = 8 ∧
    seqAt (expandBufferSize exDup).2 1 = seqAt exDup 1 := by
  have h := (c3_growth_preserves_data exDup (by unfold lenOK; decide)
    (by unfold idxInv; decide) (by decide) (by decide) (by decide)).1
  refine ⟨h.1, h.2.1, ?_⟩
  have := (h.2.2 1 (by decide) (by decide)).1
  simpa using this

theorem markContinuous_size (s : PacketBuffer) (i : Nat) :
    (markContinuous s i).size_ = s.size_ := rfl

theorem markCreated_size (s : PacketBuffer) (i : Nat) :
    (markCreated s i).size_ = s.size_ := rfl

theorem unmarkLoop_size (fuel : Nat) :
    ∀ (s : PacketBuffer) (a b : Nat), (unmarkLoop fuel s a b).size_ = s.size_ := by
  induction fuel with
  | zero => intro s a b; rfl
  | succ f ih =>
    intro s a b
    rw [unmarkLoop]
    split
    · rfl
    · exact ih _ _ _

theorem clearIntervalLoop_size (fuel : Nat) :
    ∀ (s : PacketBuffer) (q : Nat), (clearIntervalLoop fuel s q).size_ = s.size_ := by
  induction fuel with
  | zero => intro s q; rfl
  | succ f ih =>
    intro s q
    rw [clearIntervalLoop]
    exact ih _ _

theorem nalusFold_tested (l : List NaluType) :
    ∀ a : WalkAcc,
    (l.foldl (fun a n =>
      match n with
      | .sps => { a with has_sps := true }
      | .pps => { a with has_pps := true }
      | .idr => { a with has_idr := true }
      | .other => a) a).tested = a.tested := by
  induction l with
  | nil => intro a; rfl
  | cons n t ih =>
    intro a
    rw [List.foldl_cons, ih]
    cases n <;> rfl

theorem h264Step_some_tested (flag isH : Bool) (p : VCMPacket) (a b : WalkAcc)
    (h : h264Step flag isH p a = some b) : b.tested = a.tested := by
  unfold h264Step at h
  split at h
  · split at h
    · cases h
    · split at h
      · cases h
      · dsimp only at h
        split at h
        · injection h with hb
          rw [← hb]
          exact nalusFold_tested _ _
        · injection h with hb
          rw [← hb]
          exact nalusFold_tested _ _
  · injection h with hb
    rw [← hb]

theorem backwardWalk_inv (flag isH : Bool) (ts : Nat) (fuel : Nat) :
    ∀ (s : PacketBuffer) (idx sq : Nat) (acc : WalkAcc),
    (∀ s2 t, backwardWalk flag isH ts fuel s idx sq acc = .malformed s2 t →
      s2.size_ = s.size_ ∧ t ≤ acc.tested + fuel) ∧
    (∀ s2 ss si acc2, backwardWalk flag isH ts fuel s idx sq acc = .done s2 ss si acc2 →
      s2.size_ = s.size_ ∧ acc2.tested ≤ acc.tested + fuel) := by
  induction fuel with
  | zero =>
    intro s idx sq acc
    constructor
    · intro s2 t h
      rw [backwardWalk] at h
      exact WalkResult.noConfusion h
    · intro s2 ss si acc2 h
      rw [backwardWalk] at h
      injection h with h1 h2 h3 h4
      subst h1; subst h4
      exact ⟨rfl, Nat.le_refl _⟩
  | succ f ih =>
    intro s idx sq acc
    constructor
    · intro s2 t h
      rw [backwardWalk] at h
      dsimp only at h
      split at h
      · exact WalkResult.noConfusion h
      · split at h
        · injection h with h1 h2
          subst h1; subst h2
          exact ⟨rfl, by simp⟩
        · rename_i acc2 hstep
          have ht2 := h264Step_some_tested _ _ _ _ _ hstep
          simp only at ht2
          split at h
          · exact WalkResult.noConfusion h
          · split at h <;> split at h
            · exact WalkResult.noConfusion h
            · have hr := (ih _ _ _ _).1 _ _ h
              refine ⟨hr.1, ?_⟩
              have := hr.2
              omega
            · exact WalkResult.noConfusion h
            · have hr := (ih _ _ _ _).1 _ _ h
              refine ⟨hr.1, ?_⟩
              have := hr.2
              omega
    · intro s2 ss si acc2 h
      rw [backwardWalk] at h
      dsimp only at h
      split at h
      · injection h with h1 h2 h3 h4
        subst h1; subst h4
        refine ⟨rfl, ?_⟩
        simp only
        omega
      · split at h
        · exact WalkResult.noConfusion h
        · rename_i acc3 hstep
          have ht2 := h264Step_some_tested _ _ _ _ _ hstep
          simp only at ht2
          split at h
          · injection h with h1 h2 h3 h4
            subst h1; subst h4
            exact ⟨rfl, by omega⟩
          · split at h <;> split at h
            · injection h with h1 h2 h3 h4
              subst h1; subst h4
              exact ⟨rfl, by omega⟩
            · have hr := (ih _ _ _ _).2 _ _ _ _ h
              refine ⟨hr.1, ?_⟩
              have := hr.2
              omega
            · injection h with h1 h2 h3 h4
              subst h1; subst h4
              exact ⟨rfl, by omega⟩
            · have hr := (ih _ _ _ _).2 _ _ _ _ h
              refine ⟨hr.1, ?_⟩
              have := hr.2
              omega

theorem clearInterval_size (s : PacketBuffer) (a b : Nat) :
    (clearInterval s a b).size_ = s.size_ := by
  rw [clearInterval, clearIntervalLoop_size]

theorem applyFrameTypeWrite_size (s2 : PacketBuffer) (isH : Bool)
    (ss : Nat) (k : Bool) :
    (applyFrameTypeWrite s2 isH ss k).size_ = s2.size_ := by
  unfold applyFrameTypeWrite
  split <;> rfl

theorem findFramesLoop_size (fuel : Nat) :
    ∀ (s : PacketBuffer) (seq : Nat) (found : List Frame) (it wm : Nat),
    (findFramesLoop fuel s seq found it wm).state.size_ = s.size_ := by
  induction fuel with
  | zero => intro s seq found it wm; rfl
  | succ f ih =>
    intro s seq found it wm
    rw [findFramesLoop]
    split
    · rfl
    · dsimp only
      split
      · rw [ih]
        rfl
      · split
        · rename_i s2 t hw
          exact ((backwardWalk_inv _ _ _ _ _ _ _ _).1 _ _ hw).1
        · rename_i s2 ss si acc2 hw
          have hs2 : s2.size_ = s.size_ :=
            ((backwardWalk_inv _ _ _ _ _ _ _ _).2 _ _ _ _ hw).1
          split
          · rw [unmarkLoop_size]
            rw [applyFrameTypeWrite_size]
            exact hs2
          · rw [ih, clearInterval_size]
            dsimp only
            rw [applyFrameTypeWrite_size]
            exact hs2

theorem findFramesLoop_iters (fuel : Nat) :
    ∀ (s : PacketBuffer) (seq : Nat) (found : List Frame) (it wm : Nat),
    (findFramesLoop fuel s seq found it wm).iters ≤ it + fuel := by
  induction fuel with
  | zero => intro s seq found it wm; dsimp only [findFramesLoop]; omega
  | succ f ih =>
    intro s seq found it wm
    rw [findFramesLoop]
    split
    · dsimp only
      omega
    · dsimp only
      split
      · exact le_trans (ih _ _ _ _ _) (by omega)
      · split
        · dsimp only
          omega
        · split
          · dsimp only
            omega
          · exact le_trans (ih _ _ _ _ _) (by omega)

theorem findFramesLoop_walkMax (fuel : Nat) :
    ∀ (s : PacketBuffer) (seq : Nat) (found : List Frame) (it wm : Nat),
    (findFramesLoop fuel s seq found it wm).walkMax ≤ max wm s.size_ := by
  induction fuel with
  | zero =>
    intro s seq found it wm
    dsimp only [findFramesLoop]
    omega
  | succ f ih =>
    intro s seq found it wm
    rw [findFramesLoop]
    split
    · dsimp only
      omega
    · dsimp only
      split
      · refine le_trans (ih _ _ _ _ _) ?_
        rw [markContinuous_size]
      · split
        · rename_i s2 t hw
          have ht := ((backwardWalk_inv _ _ _ _ _ _ _ _).1 _ _ hw).2
          rw [markContinuous_size] at ht
          dsimp only at ht ⊢
          omega
        · rename_i s2 ss si acc2 hw
          have ht := ((backwardWalk_inv _ _ _ _ _ _ _ _).2 _ _ _ _ hw).2
          rw [markContinuous_size] at ht
          dsimp only at ht
          have hs2 : s2.size_ = s.size_ :=
            ((backwardWalk_inv _ _ _ _ _ _ _ _).2 _ _ _ _ hw).1
          split
          · dsimp only
            omega
          · refine le_trans (ih _ _ _ _ _) ?_
            rw [clearInterval_size]
            dsimp only
            rw [applyFrameTypeWrite_size, hs2]
            omega

/-- `C6`: `FindFrames` always terminates with explicit bounds: for every
buffer state and start sequence number, the forward scan executes at
most `size_` iterations and every backward accumulation walk tests at
most `size_` slots. -/
theorem c6_find_frames_bounded (s : PacketBuffer) (seq_num : Nat) :
    (findFramesInstr s seq_num).iters ≤ s.size_ ∧
    (findFramesInstr s seq_num).walkMax ≤ s.size_ := by
  constructor
  · have := findFramesLoop_iters s.size_ s seq_num [] 0 0
    simpa using this
  · have := findFramesLoop_walkMax s.size_ s seq_num [] 0 0
    simpa using this

theorem getD_set_oob {α : Type} (l : List α) (i : Nat) (x : α)
    (h : l.length ≤ i) : l.set i x = l := by
  induction l generalizing i with
  | nil => rfl
  | cons a t ih =>
    cases i with
    | zero => simp at h
    | succ j => simpa using ih j (by simpa using h)

theorem markCreated_marks (s : PacketBuffer) (i : Nat)
    (hlen : s.sequence_buffer_.length = s.size_) (hi : i < s.size_) :
    (seqAt (markCreated s i) i).frame_created = true := by
  show ((s.sequence_buffer_.set i _).getD i _).frame_created = true
  rw [getD_set_self _ _ _ _ (by omega)]

theorem markCreated_mono (s : PacketBuffer) (c i : Nat)
    (h : (seqAt s i).frame_created = true) :
    (seqAt (markCreated s c) i).frame_created = true := by
  show ((s.sequence_buffer_.set c _).getD i _).frame_created = true
  by_cases hci : c = i
  · subst hci
    by_cases hc : c < s.sequence_buffer_.length
    · rw [getD_set_self _ _ _ _ hc]
    · rw [getD_set_oob _ _ _ (by omega)]
      exact h
  · rw [getD_set_ne _ _ _ _ _ hci]
    exact h

theorem h264Step_none_bad (flag isH : Bool) (p : VCMPacket) (a : WalkAcc)
    (h : h264Step flag isH p a = none) :
    p.video_header.video_type_header = none ∨
    kMaxNalusPerPacket ≤ (p.video_header.video_type_header.getD {}).nalus.length := by
  unfold h264Step at h
  split at h
  · split at h
    · rename_i heq
      exact Or.inl heq
    · rename_i hh heq
      split at h
      · rename_i hlen2
        rw [heq]
        exact Or.inr hlen2
      · dsimp only at h
        split at h <;> cases h
  · cases h

theorem backwardWalk_mark_mono (flag isH : Bool) (ts : Nat) (fuel : Nat) :
    ∀ (s : PacketBuffer) (idx sq : Nat) (acc : WalkAcc) (i : Nat),
    (seqAt s i).frame_created = true →
    (∀ s2 t, backwardWalk flag isH ts fuel s idx sq acc = .malformed s2 t →
      (seqAt s2 i).frame_created = true) ∧
    (∀ s2 ss si acc2, backwardWalk flag isH ts fuel s idx sq acc = .done s2 ss si acc2 →
      (seqAt s2 i).frame_created = true) := by
  induction fuel with
  | zero =>
    intro s idx sq acc i hm
    constructor
    · intro s2 t h
      rw [backwardWalk] at h
      exact WalkResult.noConfusion h
    · intro s2 ss si acc2 h
      rw [backwardWalk] at h
      injection h with h1 h2 h3 h4
      subst h1
      exact hm
  | succ f ih =>
    intro s idx sq acc i hm
    have hm2 : (seqAt (markCreated s idx) i).frame_created = true :=
      markCreated_mono s idx i hm
    constructor
    · intro s2 t h
      rw [backwardWalk] at h
      dsimp only at h
      split at h
      · exact WalkResult.noConfusion h
      · split at h
        · injection h with h1 h2
          subst h1
          exact hm2
        · split at h
          · exact WalkResult.noConfusion h
          · split at h <;> split at h
            · exact WalkResult.noConfusion h
            · exact ((ih _ _ _ _ i hm2).1 _ _ h)
            · exact WalkResult.noConfusion h
            · exact ((ih _ _ _ _ i hm2).1 _ _ h)
    · intro s2 ss si acc2 h
      rw [backwardWalk] at h
      dsimp only at h
      split at h
      · injection h with h1 h2 h3 h4
        subst h1
        exact hm2
      · split at h
        · exact WalkResult.noConfusion h
        · split at h
          · injection h with h1 h2 h3 h4
            subst h1
            exact hm2
          · split at h <;> split at h
            · injection h with h1 h2 h3 h4
              subst h1
              exact hm2
            · exact ((ih _ _ _ _ i hm2).2 _ _ _ _ h)
            · injection h with h1 h2 h3 h4
              subst h1
              exact hm2
            · exact ((ih _ _ _ _ i hm2).2 _ _ _ _ h)

theorem backwardWalk_malformed_marks (flag isH : Bool) (ts : Nat) (fuel : Nat) :
    ∀ (s : PacketBuffer) (idx sq : Nat) (acc : WalkAcc) (s2 : PacketBuffer) (t : Nat),
    s.sequence_buffer_.length = s.size_ → idx < s.size_ →
    backwardWalk flag isH ts fuel s idx sq acc = .malformed s2 t →
    (seqAt s2 idx).frame_created = true ∧
    ∃ j, j < s.size_ ∧ (seqAt s2 j).frame_created = true ∧
      ((dataAt s2 j).video_header.video_type_header = none ∨
       kMaxNalusPerPacket ≤
         ((dataAt s2 j).video_header.video_type_header.getD {}).nalus.length) := by
  induction fuel with
  | zero =>
    intro s idx sq acc s2 t hlen hidx h
    rw [backwardWalk] at h
    exact WalkResult.noConfusion h
  | succ f ih =>
    intro s idx sq acc s2 t hlen hidx h
    have hmarked : (seqAt (markCreated s idx) idx).frame_created = true :=
      markCreated_marks s idx hlen hidx
    rw [backwardWalk] at h
    dsimp only at h
    split at h
    · exact WalkResult.noConfusion h
    · split at h
      · rename_i hstep
        injection h with h1 h2
        subst h1
        refine ⟨hmarked, idx, hidx, hmarked, ?_⟩
        exact h264Step_none_bad _ _ _ _ hstep
      · split at h
        · exact WalkResult.noConfusion h
        · split at h <;> split at h
          · exact WalkResult.noConfusion h
          · rename_i hpos _
            have hrec := ih (markCreated s idx) (idx - 1) _ _ _ _
              (by simpa [markCreated, setSeqSlot] using hlen)
              (by simp only [markCreated_size]; omega) h
            refine ⟨(backwardWalk_mark_mono _ _ _ _ _ _ _ _ _ hmarked).1 _ _ h, ?_⟩
            obtain ⟨j, hj, hjm, hjb⟩ := hrec.2
            exact ⟨j, by simpa [markCreated_size] using hj, hjm, hjb⟩
          · exact WalkResult.noConfusion h
          · rename_i hpos _
            have hrec := ih (markCreated s idx) (s.size_ - 1) _ _ _ _
              (by simpa [markCreated, setSeqSlot] using hlen)
              (by simp only [markCreated_size]; omega) h
            refine ⟨(backwardWalk_mark_mono _ _ _ _ _ _ _ _ _ hmarked).1 _ _ h, ?_⟩
            obtain ⟨j, hj, hjm, hjb⟩ := hrec.2
            exact ⟨j, by simpa [markCreated_size] using hj, hjm, hjb⟩

/-- `C4` counterexample: a complete single-packet H.264 frame whose
codec header is absent.  `FindFrames` aborts and emits nothing, but the
visited slot is left *consumed* (`frame_created = true`), contradicting
the claim that the malformed run's slots stay unconsumed. -/
theorem c4_counterexample :
    (dataAt exMalformed 1).video_header.video_type_header = none ∧
    (seqAt exMalformed 1).frame_created = false ∧
    (findFrames exMalformed 1).2 = [] ∧
    (seqAt (findFrames exMalformed 1).1 1).frame_created = true := by
  decide

/-- `C4` amended: when the backward walk of the heuristic-codec (H.264)
path meets a packet with an absent codec header or a NAL-unit count at
the safety limit, `FindFrames` aborts the whole scan and returns
exactly the frames already found — emitting no frame for the malformed
run and not crashing — but the visited slots are left marked consumed
(`frame_created`), not unconsumed, and are not cleared. -/
theorem c4_malformed_abort :
    (∀ (f : Nat) (s : PacketBuffer) (seq : Nat) (found : List Frame) (it wm : Nat)
      (s2 : PacketBuffer) (t : Nat),
      potentialNewFrame s seq = true →
      (seqAt (markContinuous s (seq % s.size_)) (seq % s.size_)).frame_end = true →
      frameWalk (markContinuous s (seq % s.size_)) seq = .malformed s2 t →
      findFramesLoop (f + 1) s seq found it wm = ⟨s2, found, it + 1, max wm t⟩) ∧
    (∀ (flag isH : Bool) (ts fuel : Nat) (s : PacketBuffer) (idx sq : Nat)
      (acc : WalkAcc) (s2 : PacketBuffer) (t : Nat),
      s.sequence_buffer_.length = s.size_ → idx < s.size_ →
      backwardWalk flag isH ts fuel s idx sq acc = .malformed s2 t →
      (seqAt s2 idx).frame_created = true ∧
      ∃ j, j < s.size_ ∧ (seqAt s2 j).frame_created = true ∧
        ((dataAt s2 j).video_header.video_type_header = none ∨
         kMaxNalusPerPacket ≤
           ((dataAt s2 j).video_header.video_type_header.getD {}).nalus.length)) := by
  constructor
  · intro f s seq found it wm s2 t hp hfe hwalk
    rw [findFramesLoop]
    rw [if_neg (by simp [hp])]
    try dsimp only
    rw [if_neg (by simp [hfe])]
    try dsimp only
    rw [hwalk]
  · intro flag isH ts fuel s idx sq acc s2 t hlen hidx h
    exact backwardWalk_malformed_marks flag isH ts fuel s idx sq acc s2 t hlen hidx h

/-- `C4` witness: the abort at the concrete malformed state. -/
theorem c4_witness :
    findFramesLoop 2 exMalformed 1 [] 0 0 =
      ⟨markCreated (markContinuous exMalformed 1) 1, [], 1, max 0 1⟩ ∧
    (seqAt (markCreated (markContinuous exMalformed 1) 1) 1).frame_created = true := by
  constructor
  · exact c4_malformed_abort.1 1 exMalformed 1 [] 0 0
      (markCreated (markContinuous exMalformed 1) 1) 1
      (by decide) (by decide) (by decide)
  · exact (c4_malformed_abort.2
      (markContinuous exMalformed 1).sps_pps_idr_is_h264_keyframe_
      (decide ((dataAt (markContinuous exMalformed 1) 1).codec = VideoCodecType.h264))
      (dataAt (markContinuous exMalformed 1) 1).timestamp
      2 (markContinuous exMalformed 1) 1 1
      { frame_size := 0, max_nack_count := -1
        min_recv_time := (dataAt (markContinuous exMalformed 1) 1).receive_time_ms
        max_recv_time := (dataAt (markContinuous exMalformed 1) 1).receive_time_ms
        packet_infos := [], tested := 0 }
      (markCreated (markContinuous exMalformed 1) 1) 1
      (by decide) (by decide) (by decide)).1

theorem idxHops_eq (size a b : Nat) (ha : a < size) (hb : b < size) :
    idxHops size a b = if a ≤ b then b - a else b + size - a := by
  unfold idxHops
  split
  · have he : b + size - a = size + (b - a) := by omega
    rw [he, Nat.add_mod_left]
    exact Nat.mod_eq_of_lt (by omega)
  · exact Nat.mod_eq_of_lt (by omega)

theorem succ_mod_eq (size a : Nat) (ha : a < size) :
    (a + 1) % size = if a + 1 = size then 0 else a + 1 := by
  split
  · rename_i h
    rw [h, Nat.mod_self]
  · exact Nat.mod_eq_of_lt (by omega)

theorem idxHops_succ (size a i : Nat) (ha : a < size) (hi : i < size)
    (hne : a ≠ i) :
    idxHops size a i = idxHops size ((a + 1) % size) i + 1 := by
  rw [succ_mod_eq size a ha]
  by_cases hend : a + 1 = size
  · rw [if_pos hend, idxHops_eq size a i ha hi, idxHops_eq size 0 i (by omega) hi]
    split <;> split <;> omega
  · rw [if_neg hend, idxHops_eq size a i ha hi, idxHops_eq size (a + 1) i (by omega) hi]
    split <;> split <;> omega

theorem clearCreated_size (s : PacketBuffer) (c : Nat) :
    (clearCreated s c).size_ = s.size_ := rfl

theorem idxHops_lt (size a b : Nat) (hs : 0 < size) : idxHops size a b < size :=
  Nat.mod_lt _ hs

theorem idxHops_zero_iff (size a b : Nat) (ha : a < size) (hb : b < size) :
    idxHops size a b = 0 ↔ a = b := by
  rw [idxHops_eq size a b ha hb]
  split <;> omega

theorem seqAt_clearCreated (s : PacketBuffer) (c i : Nat) :
    (seqAt (clearCreated s c) i).used = (seqAt s i).used ∧
    (seqAt (clearCreated s c) i).seq_num = (seqAt s i).seq_num ∧
    (c = i → c < s.sequence_buffer_.length →
      (seqAt (clearCreated s c) i).frame_created = false) ∧
    (c ≠ i → seqAt (clearCreated s c) i = seqAt s i) := by
  by_cases hci : c = i
  · subst hci
    by_cases hc : c < s.sequence_buffer_.length
    · have : seqAt (clearCreated s c) c = { seqAt s c with frame_created := false } := by
        show (s.sequence_buffer_.set c _).getD c _ = _
        rw [getD_set_self _ _ _ _ hc]
      rw [this]
      exact ⟨rfl, rfl, fun _ _ => rfl, fun h => absurd rfl h⟩
    · have : seqAt (clearCreated s c) c = seqAt s c := by
        show (s.sequence_buffer_.set c _).getD c _ = _
        rw [getD_set_oob _ _ _ (by omega)]
        rfl
      rw [this]
      exact ⟨rfl, rfl, fun _ hlt => absurd hlt hc, fun _ => rfl⟩
  · have : seqAt (clearCreated s c) i = seqAt s i := by
      show (s.sequence_buffer_.set c _).getD i _ = _
      rw [getD_set_ne _ _ _ _ _ hci]
      rfl
    rw [this]
    exact ⟨rfl, rfl, fun h => absurd h hci, fun _ => rfl⟩

theorem unmarkLoop_untouched (fuel : Nat) :
    ∀ (s : PacketBuffer) (a b : Nat),
    (∀ i, (seqAt (unmarkLoop fuel s a b) i).used = (seqAt s i).used) ∧
    (unmarkLoop fuel s a b).data_buffer_ = s.data_buffer_ := by
  induction fuel with
  | zero => intro s a b; exact ⟨fun i => rfl, rfl⟩
  | succ f ih =>
    intro s a b
    rw [unmarkLoop]
    split
    · exact ⟨fun i => rfl, rfl⟩
    · constructor
      · intro i
        rw [(ih _ _ _).1 i]
        exact (seqAt_clearCreated s a i).1
      · rw [(ih _ _ _).2]
        rfl

theorem unmarkLoop_created (fuel : Nat) :
    ∀ (s : PacketBuffer) (a b : Nat),
    s.sequence_buffer_.length = s.size_ → a < s.size_ → b < s.size_ →
    idxHops s.size_ a b ≤ fuel →
    ∀ i, i < s.size_ →
    (seqAt (unmarkLoop fuel s a b) i).frame_created =
      (if idxHops s.size_ a i < idxHops s.size_ a b then false
       else (seqAt s i).frame_created) := by
  induction fuel with
  | zero =>
    intro s a b hlen ha hb hfuel i hi
    have h0 : idxHops s.size_ a b = 0 := by omega
    rw [h0]
    simp [unmarkLoop]
  | succ f ih =>
    intro s a b hlen ha hb hfuel i hi
    rw [unmarkLoop]
    split
    · rename_i hab
      subst hab
      rw [(idxHops_zero_iff _ _ _ ha ha).mpr rfl]
      simp
    · rename_i hab
      have hab2 : idxHops s.size_ a b ≥ 1 := by
        rcases Nat.eq_zero_or_pos (idxHops s.size_ a b) with h | h
        · exact absurd ((idxHops_zero_iff _ _ _ ha hb).mp h) hab
        · exact h
      have hsz : 0 < s.size_ := by omega
      have ha1 : (a + 1) % s.size_ < s.size_ := Nat.mod_lt _ hsz
      have hhb : idxHops s.size_ a b = idxHops s.size_ ((a + 1) % s.size_) b + 1 :=
        idxHops_succ _ _ _ ha hb hab
      have hcc : (clearCreated s a).sequence_buffer_.length = (clearCreated s a).size_ := by
        show (s.sequence_buffer_.set a _).length = s.size_
        rw [List.length_set]
        exact hlen
      have hrec := ih (clearCreated s a) ((a + 1) % s.size_) b hcc ha1 hb
        (by show idxHops s.size_ _ b ≤ f; omega) i hi
      rw [hrec]
      simp only [clearCreated_size]
      by_cases hai : a = i
      · subst hai
        rw [(idxHops_zero_iff _ _ _ ha ha).mpr rfl]
        have h1 : idxHops s.size_ ((a + 1) % s.size_) a = s.size_ - 1 := by
          rw [succ_mod_eq _ _ ha]
          by_cases hend : a + 1 = s.size_
          · rw [if_pos hend, idxHops_eq _ _ _ (by omega) ha]
            split <;> omega
          · rw [if_neg hend, idxHops_eq _ _ _ (by omega) ha]
            split <;> omega
        have h2 : idxHops s.size_ ((a + 1) % s.size_) b < s.size_ - 1 := by
          have := idxHops_lt s.size_ a b hsz
          omega
        rw [if_neg (by omega), if_pos (by omega)]
        exact (seqAt_clearCreated s a a).2.2.1 rfl (by omega)
      · have h1 : idxHops s.size_ a i = idxHops s.size_ ((a + 1) % s.size_) i + 1 :=
          idxHops_succ _ _ _ ha hi hai
        rw [(seqAt_clearCreated s a i).2.2.2 hai]
        by_cases hcond : idxHops s.size_ ((a + 1) % s.size_) i <
            idxHops s.size_ ((a + 1) % s.size_) b
        · rw [if_pos hcond, if_pos (by omega)]
        · rw [if_neg hcond, if_neg (by omega)]

/-- `C5` counterexample: a completed single-packet H.264 delta frame at
sequence number 2 with a missing-set entry at 0, but with
`temporal_id = 0` on the slot the backward walk stops at: the
dependency-gap abort does *not* fire and the frame is emitted. -/
theorem c5_counterexample :
    hasMissingAtOrBefore exTemporal.missing_packets_ 2 = true ∧
    (dataAt exTemporal 1).video_header.temporal_id = 0 ∧
    (findFrames exTemporal 2).2.map Frame.frame_type = [.videoFrameDelta] ∧
    (findFrames exTemporal 2).2.map Frame.first_seq_num = [2] := by
  decide

/-- `C5` amended: when the completed heuristic-codec (H.264) frame is
classified as a non-keyframe, the missing set holds an entry at or
before its start, *and* the temporal id read from the slot the backward
walk stopped at equals `kNoTemporalIdx`, `FindFrames` takes the gap
abort: it emits no frame, returns exactly the frames already found, and
the abort's un-consume loop resets `frame_created` on every slot from
the walk-stop position through the current slot while changing no
`used` flag and no payload. -/
theorem c5_gap_abort :
    (∀ (f : Nat) (s : PacketBuffer) (seq : Nat) (found : List Frame) (it wm : Nat)
      (s2 : PacketBuffer) (ss si : Nat) (acc : WalkAcc),
      potentialNewFrame s seq = true →
      (seqAt (markContinuous s (seq % s.size_)) (seq % s.size_)).frame_end = true →
      frameWalk (markContinuous s (seq % s.size_)) seq = .done s2 ss si acc →
      decide ((dataAt (markContinuous s (seq % s.size_))
        (seq % s.size_)).codec = VideoCodecType.h264) = true →
      (dataAt (applyFrameTypeWrite s2
          (decide ((dataAt (markContinuous s (seq % s.size_))
            (seq % s.size_)).codec = VideoCodecType.h264)) ss acc.is_keyframe)
        si).video_header.temporal_id = kNoTemporalIdx →
      acc.is_keyframe = false →
      hasMissingAtOrBefore (applyFrameTypeWrite s2
          (decide ((dataAt (markContinuous s (seq % s.size_))
            (seq % s.size_)).codec = VideoCodecType.h264)) ss
          acc.is_keyframe).missing_packets_ ss = true →
      findFramesLoop (f + 1) s seq found it wm =
        ⟨unmarkLoop (applyFrameTypeWrite s2
            (decide ((dataAt (markContinuous s (seq % s.size_))
              (seq % s.size_)).codec = VideoCodecType.h264)) ss
            acc.is_keyframe).size_
          (applyFrameTypeWrite s2
            (decide ((dataAt (markContinuous s (seq % s.size_))
              (seq % s.size_)).codec = VideoCodecType.h264)) ss acc.is_keyframe)
          si
          ((seq % s.size_ + 1) % (applyFrameTypeWrite s2
            (decide ((dataAt (markContinuous s (seq % s.size_))
              (seq % s.size_)).codec = VideoCodecType.h264)) ss
            acc.is_keyframe).size_),
         found, it + 1, max wm acc.tested⟩) ∧
    (∀ (fuel : Nat) (s : PacketBuffer) (a b : Nat),
      s.sequence_buffer_.length = s.size_ → a < s.size_ → b < s.size_ →
      idxHops s.size_ a b ≤ fuel →
      (∀ i, i < s.size_ → idxHops s.size_ a i < idxHops s.size_ a b →
        (seqAt (unmarkLoop fuel s a b) i).frame_created = false) ∧
      (∀ i, (seqAt (unmarkLoop fuel s a b) i).used = (seqAt s i).used) ∧
      (unmarkLoop fuel s a b).data_buffer_ = s.data_buffer_) := by
  constructor
  · intro f s seq found it wm s2 ss si acc hp hfe hwalk hH htid hkey hmiss
    rw [findFramesLoop]
    rw [if_neg (by simp [hp])]
    try dsimp only
    rw [if_neg (by simp [hfe])]
    try dsimp only
    rw [hwalk]
    try dsimp only
    rw [if_pos]
    rw [Bool.and_eq_true, Bool.and_eq_true, Bool.and_eq_true]
    refine ⟨⟨⟨hH, by rw [htid]; simp⟩, by rw [hkey]; rfl⟩, hmiss⟩
  · intro fuel s a b hlen ha hb hfuel
    refine ⟨?_, (unmarkLoop_untouched fuel s a b).1,
      (unmarkLoop_untouched fuel s a b).2⟩
    intro i hi hvis
    rw [unmarkLoop_created fuel s a b hlen ha hb hfuel i hi, if_pos hvis]

/-- `C5` witness: the gap abort at the concrete state with
`kNoTemporalIdx` on the walk-stop slot: no frame is emitted and the
frame-end slot is un-consumed but stays used. -/
theorem c5_witness :
    (findFramesLoop 4 exTemporalGap 2 [] 0 0).frames = [] ∧
    (seqAt (findFramesLoop 4 exTemporalGap 2 [] 0 0).state 2).frame_created = false ∧
    (seqAt (findFramesLoop 4 exTemporalGap 2 [] 0 0).state 2).used = true := by
  have h := c5_gap_abort.1 3 exTemporalGap 2 [] 0 0
    (markCreated (markContinuous exTemporalGap 2) 2) 2 1
    { frame_size := 1, max_nack_count := 0, min_recv_time := 0, max_recv_time := 0
      packet_infos := [0], tested := 1 }
    (by decide) (by decide) (by decide) (by decide) (by decide) (by decide) (by decide)
  rw [h]
  exact ⟨rfl, by decide, by decide⟩

theorem aheadOf_eq_false_iff (a b : Nat) :
    aheadOf a b = false ↔
      ¬((0 < fwdDiff b a ∧ fwdDiff b a < 32768) ∨
        (fwdDiff b a = 32768 ∧ b % kU16 < a % kU16)) := by
  rw [← Bool.not_eq_true, aheadOf_iff]

theorem fwdDiff_zero_iff (a b : Nat) (ha : a < kU16) (hb : b < kU16) :
    fwdDiff a b = 0 ↔ a = b := by
  simp only [fwdDiff, kU16] at *
  omega

theorem fwdDiff_succ_left (n x : Nat) (hn : n < kU16) (hx : x < kU16)
    (hne : x ≠ n) :
    fwdDiff ((n + 1) % kU16) x + 1 = fwdDiff n x := by
  simp only [fwdDiff, kU16] at *
  omega

theorem succ_u16_lt (n : Nat) : (n + 1) % kU16 < kU16 := by
  simp only [kU16]
  omega

theorem msInsert_mem (l : List Nat) (n x : Nat) :
    x ∈ msInsert l n ↔ x ∈ l ∨ x = n := by
  unfold msInsert
  split
  · rename_i hmem
    constructor
    · exact Or.inl
    · rintro (h | rfl)
      · exact h
      · exact hmem
  · simp

theorem missingInsertLoop_spec (seq : Nat) (hseq : seq < kU16) (fuel : Nat) :
    ∀ (n : Nat) (ms : List Nat), n < kU16 →
    fwdDiff n seq ≤ fuel → fwdDiff n seq ≤ 32767 →
    (missingInsertLoop fuel n seq ms).2 = seq ∧
    (∀ x, x ∈ (missingInsertLoop fuel n seq ms).1 ↔
      x ∈ ms ∨ (x < kU16 ∧ fwdDiff n x < fwdDiff n seq)) := by
  induction fuel with
  | zero =>
    intro n ms hn hfuel hd
    have hn2 : n = seq := (fwdDiff_zero_iff n seq hn hseq).mp (by omega)
    subst hn2
    rw [missingInsertLoop]
    exact ⟨rfl, fun x => by
      constructor
      · exact Or.inl
      · rintro (h | ⟨_, h2⟩)
        · exact h
        · omega⟩
  | succ f ih =>
    intro n ms hn hfuel hd
    rw [missingInsertLoop]
    by_cases hend : n = seq
    · subst hend
      rw [if_neg (by
        intro hcon
        rw [aheadOf_iff] at hcon
        simp only [fwdDiff, kU16] at hcon
        omega)]
      refine ⟨rfl, fun x => ?_⟩
      have h0 : fwdDiff n n = 0 := by simp only [fwdDiff, kU16]; omega
      rw [h0]
      constructor
      · exact Or.inl
      · rintro (h | ⟨_, h2⟩)
        · exact h
        · omega
    · have hpos : 0 < fwdDiff n seq := by
        rcases Nat.eq_zero_or_pos (fwdDiff n seq) with h | h
        · exact absurd ((fwdDiff_zero_iff n seq hn hseq).mp h) hend
        · exact h
      rw [if_pos (by rw [aheadOf_iff]; exact Or.inl ⟨hpos, by omega⟩)]
      have hstep : fwdDiff ((n + 1) % kU16) seq + 1 = fwdDiff n seq :=
        fwdDiff_succ_left n seq hn hseq (fun h => hend h.symm)
      have hrec := ih ((n + 1) % kU16) (msInsert ms n) (succ_u16_lt n)
        (by omega) (by omega)
      refine ⟨hrec.1, fun x => ?_⟩
      rw [hrec.2 x, msInsert_mem]
      constructor
      · rintro ((h | hxeq) | ⟨hx, h2⟩)
        · exact Or.inl h
        · refine Or.inr ?_
          rw [hxeq]
          refine ⟨hn, ?_⟩
          have h0 : fwdDiff n n = 0 := by simp only [fwdDiff, kU16]; omega
          omega
        · refine Or.inr ⟨hx, ?_⟩
          by_cases hxn : x = n
          · exfalso
            rw [hxn] at h2
            have hbig : fwdDiff ((n + 1) % kU16) n = kU16 - 1 := by
              simp only [fwdDiff, kU16]
              omega
            have hk : kU16 = 65536 := rfl
            omega
          · have := fwdDiff_succ_left n x hn hx hxn
            omega
      · rintro (h | ⟨hx, h2⟩)
        · exact Or.inl (Or.inl h)
        · by_cases hxn : x = n
          · exact Or.inl (Or.inr hxn)
          · refine Or.inr ⟨hx, ?_⟩
            have := fwdDiff_succ_left n x hn hx hxn
            omega

theorem updateMissingJump_eq : updateMissingPackets exMissingJump 2000 =
    { exMissingJump with
      missing_packets_ := (missingInsertLoop kU16 1001 2000 []).1
      newest_inserted_seq_num_ := some (missingInsertLoop kU16 1001 2000 []).2 } := by
  simp only [updateMissingPackets]
  have hnew : exMissingJump.newest_inserted_seq_num_ = some 0 := rfl
  rw [hnew]
  simp only [Option.getD_some]
  rw [if_pos (by decide : aheadOf 2000 0 = true)]
  have hold : (2000 + kU16 - kMaxPaddingAge) % kU16 = 1000 := by decide
  rw [hold]
  have hms : msEraseOlderThan exMissingJump.missing_packets_ 1000 = [] := rfl
  rw [hms]
  rw [if_pos (by decide : aheadOf 1000 0 = true)]
  have h1001 : (1000 + 1) % kU16 = 1001 := by decide
  rw [h1001]

/-- `C7` counterexample: with newest-known `0`, inserting `2000` jumps
by more than `kMaxPaddingAge`; `500` is strictly between them yet is
not added to the missing set. -/
theorem c7_counterexample :
    (updateMissingPackets exMissingJump 2000).newest_inserted_seq_num_ = some 2000 ∧
    aheadOf 2000 0 = true ∧
    aheadOf 2000 500 = true ∧ aheadOf 500 0 = true ∧
    ¬(500 ∈ (updateMissingPackets exMissingJump 2000).missing_packets_) ∧
    1001 ∈ (updateMissingPackets exMissingJump 2000).missing_packets_ := by
  obtain ⟨hA, hB⟩ := missingInsertLoop_spec 2000 (by decide) kU16 1001 []
    (by decide) (by decide) (by decide)
  obtain ⟨r, hr⟩ : ∃ r, missingInsertLoop kU16 1001 2000 [] = r := ⟨_, rfl⟩
  rw [hr] at hA hB
  have hred : updateMissingPackets exMissingJump 2000 =
      { exMissingJump with
        missing_packets_ := r.1
        newest_inserted_seq_num_ := some r.2 } := by
    rw [updateMissingJump_eq, hr]
  refine ⟨?_, by decide, by decide, by decide, ?_, ?_⟩
  · rw [hred]
    show some r.2 = some 2000
    rw [hA]
  · rw [hred]
    intro h500
    have h5 : 500 ∈ r.1 := h500
    rcases (hB 500).mp h5 with h | ⟨_, hlt⟩
    · exact absurd h (List.not_mem_nil 500)
    · have e1 : fwdDiff 1001 500 = 65035 := by decide
      have e2 : fwdDiff 1001 2000 = 999 := by decide
      omega
  · rw [hred]
    show 1001 ∈ r.1
    exact (hB 1001).mpr (Or.inr ⟨by decide, by decide⟩)

/-- `C7` amended: on an update with `seq` ahead of the newest-known
marker, the newest marker advances to `seq`, every entry strictly
behind `seq - kMaxPaddingAge` is dropped (so nothing older than 1000
behind the new newest survives), and the entries added are exactly the
sequence numbers strictly between the effective start — `newest`, or
`seq - kMaxPaddingAge` when the jump exceeds `kMaxPaddingAge` — and
`seq`; an update with `seq` behind or equal (or the first update ever)
only erases `seq` from the set. -/
theorem c7_update_missing (s : PacketBuffer) (seq newest : Nat)
    (hseq : seq < kU16) :
    (s.newest_inserted_seq_num_ = some newest → newest < kU16 →
      aheadOf seq newest = true →
      (updateMissingPackets s seq).newest_inserted_seq_num_ = some seq ∧
      (∀ x, x ∈ (updateMissingPackets s seq).missing_packets_ →
        (x ∈ s.missing_packets_ ∧
          aheadOf ((seq + kU16 - kMaxPaddingAge) % kU16) x = false) ∨
        (x < kU16 ∧
          1 ≤ fwdDiff (if aheadOf ((seq + kU16 - kMaxPaddingAge) % kU16) newest = true
              then (seq + kU16 - kMaxPaddingAge) % kU16 else newest) x ∧
          fwdDiff (if aheadOf ((seq + kU16 - kMaxPaddingAge) % kU16) newest = true
              then (seq + kU16 - kMaxPaddingAge) % kU16 else newest) x <
          fwdDiff (if aheadOf ((seq + kU16 - kMaxPaddingAge) % kU16) newest = true
              then (seq + kU16 - kMaxPaddingAge) % kU16 else newest) seq)) ∧
      (∀ x, x < kU16 →
        1 ≤ fwdDiff (if aheadOf ((seq + kU16 - kMaxPaddingAge) % kU16) newest = true
            then (seq + kU16 - kMaxPaddingAge) % kU16 else newest) x →
        fwdDiff (if aheadOf ((seq + kU16 - kMaxPaddingAge) % kU16) newest = true
            then (seq + kU16 - kMaxPaddingAge) % kU16 else newest) x <
          fwdDiff (if aheadOf ((seq + kU16 - kMaxPaddingAge) % kU16) newest = true
            then (seq + kU16 - kMaxPaddingAge) % kU16 else newest) seq →
        x ∈ (updateMissingPackets s seq).missing_packets_)) ∧
    (s.newest_inserted_seq_num_ = some newest → aheadOf seq newest = false →
      (updateMissingPackets s seq).missing_packets_ = s.missing_packets_.erase seq ∧
      (updateMissingPackets s seq).newest_inserted_seq_num_ = some newest) ∧
    (s.newest_inserted_seq_num_ = none →
      (updateMissingPackets s seq).missing_packets_ = s.missing_packets_.erase seq ∧
      (updateMissingPackets s seq).newest_inserted_seq_num_ = some seq) := by
  refine ⟨?_, ?_, ?_⟩
  · intro hnew hnlt hahead
    unfold updateMissingPackets
    rw [hnew]
    simp only [Option.getD_some]
    rw [if_pos hahead]
    have hold : (seq + kU16 - kMaxPaddingAge) % kU16 < kU16 := by
      simp only [kU16]
      omega
    have hDold : fwdDiff ((seq + kU16 - kMaxPaddingAge) % kU16) seq = kMaxPaddingAge := by
      simp only [fwdDiff, kU16, kMaxPaddingAge] at *
      omega
    have hahead2 := (aheadOf_iff seq newest).mp hahead
    by_cases hjump : aheadOf ((seq + kU16 - kMaxPaddingAge) % kU16) newest = true
    · rw [if_pos hjump]
      have heff : ((seq + kU16 - kMaxPaddingAge) % kU16 + 1) % kU16 < kU16 := succ_u16_lt _
      have hd1 : fwdDiff (((seq + kU16 - kMaxPaddingAge) % kU16 + 1) % kU16) seq + 1 =
          fwdDiff ((seq + kU16 - kMaxPaddingAge) % kU16) seq := by
        refine fwdDiff_succ_left _ _ hold hseq ?_
        intro h
        rw [← h] at hDold
        simp only [fwdDiff, kU16, kMaxPaddingAge] at hDold
        omega
      have hloop := missingInsertLoop_spec seq hseq kU16
        (((seq + kU16 - kMaxPaddingAge) % kU16 + 1) % kU16)
        (msEraseOlderThan s.missing_packets_ ((seq + kU16 - kMaxPaddingAge) % kU16))
        heff
        (by
          have hk : kU16 = 65536 := rfl
          have hp : kMaxPaddingAge = 1000 := rfl
          omega)
        (by
          have hp : kMaxPaddingAge = 1000 := rfl
          omega)
      obtain ⟨r, hr⟩ : ∃ r, missingInsertLoop kU16
          (((seq + kU16 - kMaxPaddingAge) % kU16 + 1) % kU16) seq
          (msEraseOlderThan s.missing_packets_ ((seq + kU16 - kMaxPaddingAge) % kU16)) = r :=
        ⟨_, rfl⟩
      rw [hr] at hloop
      rw [hr]
      refine ⟨by rw [hloop.1], ?_, ?_⟩
      · intro x hx
        rw [hloop.2 x] at hx
        rcases hx with hx | ⟨hxlt, hxd⟩
        · left
          unfold msEraseOlderThan at hx
          rw [List.mem_filter] at hx
          exact ⟨hx.1, by simpa using hx.2⟩
        · right
          refine ⟨hxlt, ?_, ?_⟩
          · by_cases hxe : x = (seq + kU16 - kMaxPaddingAge) % kU16
            · rw [hxe] at hxd ⊢
              simp only [fwdDiff, kU16] at hxd ⊢
              omega
            · have := fwdDiff_succ_left ((seq + kU16 - kMaxPaddingAge) % kU16) x hold
                hxlt hxe
              omega
          · have := fwdDiff_succ_left ((seq + kU16 - kMaxPaddingAge) % kU16) x hold
              hxlt
            by_cases hxe : x = (seq + kU16 - kMaxPaddingAge) % kU16
            · rw [hxe] at hxd ⊢
              simp only [fwdDiff, kU16] at hxd ⊢
              omega
            · have h2 := this hxe
              omega
      · intro x hxlt hx1 hx2
        rw [hloop.2 x]
        right
        refine ⟨hxlt, ?_⟩
        have hxe : x ≠ (seq + kU16 - kMaxPaddingAge) % kU16 := by
          intro h
          rw [h] at hx1
          simp only [fwdDiff, kU16] at hx1
          omega
        have := fwdDiff_succ_left ((seq + kU16 - kMaxPaddingAge) % kU16) x hold hxlt hxe
        omega
    · rw [if_neg hjump]
      have hjump2 := (aheadOf_eq_false_iff _ _).mp (by
        rcases Bool.eq_false_or_eq_true
          (aheadOf ((seq + kU16 - kMaxPaddingAge) % kU16) newest) with h | h
        · exact absurd h hjump
        · exact h)
      have hnseq : newest ≠ seq := by
        intro h
        rw [h] at hahead2
        simp only [fwdDiff, kU16] at hahead2
        omega
      have hd1 : fwdDiff ((newest + 1) % kU16) seq + 1 = fwdDiff newest seq :=
        fwdDiff_succ_left newest seq hnlt hseq (fun h => hnseq h.symm)
      have hloop := missingInsertLoop_spec seq hseq kU16 ((newest + 1) % kU16)
        (msEraseOlderThan s.missing_packets_ ((seq + kU16 - kMaxPaddingAge) % kU16))
        (succ_u16_lt newest)
        (by
          have hk : kU16 = 65536 := rfl
          omega)
        (by omega)
      obtain ⟨r, hr⟩ : ∃ r, missingInsertLoop kU16 ((newest + 1) % kU16) seq
          (msEraseOlderThan s.missing_packets_ ((seq + kU16 - kMaxPaddingAge) % kU16)) = r :=
        ⟨_, rfl⟩
      rw [hr] at hloop
      rw [hr]
      refine ⟨by rw [hloop.1], ?_, ?_⟩
      · intro x hx
        rw [hloop.2 x] at hx
        rcases hx with hx | ⟨hxlt, hxd⟩
        · left
          unfold msEraseOlderThan at hx
          rw [List.mem_filter] at hx
          exact ⟨hx.1, by simpa using hx.2⟩
        · right
          refine ⟨hxlt, ?_, ?_⟩
          · by_cases hxe : x = newest
            · rw [hxe] at hxd ⊢
              simp only [fwdDiff, kU16] at hxd ⊢
              omega
            · have := fwdDiff_succ_left newest x hnlt hxlt hxe
              omega
          · by_cases hxe : x = newest
            · rw [hxe] at hxd ⊢
              simp only [fwdDiff, kU16] at hxd ⊢
              omega
            · have := fwdDiff_succ_left newest x hnlt hxlt hxe
              omega
      · intro x hxlt hx1 hx2
        rw [hloop.2 x]
        right
        refine ⟨hxlt, ?_⟩
        have hxe : x ≠ newest := by
          intro h
          rw [h] at hx1
          simp only [fwdDiff, kU16] at hx1
          omega
        have := fwdDiff_succ_left newest x hnlt hxlt hxe
        omega
  · intro hnew hbehind
    unfold updateMissingPackets
    rw [hnew]
    simp only [Option.getD_some]
    rw [if_neg (by rw [hbehind]; simp)]
    exact ⟨rfl, rfl⟩
  · intro hnew
    unfold updateMissingPackets
    rw [hnew]
    simp only [Option.getD_none]
    rw [if_neg (by
      simp only [Bool.not_eq_true]
      rw [aheadOf_eq_false_iff]
      simp only [fwdDiff, kU16]
      omega)]
    exact ⟨rfl, rfl⟩

/-- `C7` witness: a small in-window update at newest `5`, seq `8`:
the gap entries `6` and `7` are exactly the ones added. -/
theorem c7_witness :
    (updateMissingPackets { exMissingJump with newest_inserted_seq_num_ := some 5 } 8
      ).newest_inserted_seq_num_ = some 8 ∧
    6 ∈ (updateMissingPackets { exMissingJump with newest_inserted_seq_num_ := some 5 } 8
      ).missing_packets_ := by
  have h := (c7_update_missing
    { exMissingJump with newest_inserted_seq_num_ := some 5 } 8 5 (by decide)).1
    rfl (by decide) (by decide)
  refine ⟨h.1, ?_⟩
  exact h.2.2 6 (by decide) (by decide) (by decide)

theorem seqMatch_setFlag (s : PacketBuffer) (i : Nat) (c : ContinuityInfo)
    (hused : c.used = true → c.used = (seqAt s i).used ∧ c.seq_num = (seqAt s i).seq_num)
    (hm : seqMatch s) : seqMatch (setSeqSlot s i c) := by
  intro j hj hu
  by_cases hij : i = j
  · subst hij
    by_cases hlt : i < s.sequence_buffer_.length
    · have e : seqAt (setSeqSlot s i c) i = c := by
        show (s.sequence_buffer_.set i c).getD i _ = c
        exact getD_set_self _ _ _ _ hlt
      rw [e] at hu ⊢
      obtain ⟨h1, h2⟩ := hused hu
      rw [h2]
      exact hm i hj (by rw [← h1]; exact hu)
    · have e : seqAt (setSeqSlot s i c) i = seqAt s i := by
        show (s.sequence_buffer_.set i c).getD i _ = _
        rw [getD_set_oob _ _ _ (by omega)]
        rfl
      rw [e] at hu ⊢
      exact hm i hj hu
  · have e : seqAt (setSeqSlot s i c) j = seqAt s j := by
      show (s.sequence_buffer_.set i c).getD j _ = _
      rw [getD_set_ne _ _ _ _ _ hij]
      rfl
    rw [e] at hu ⊢
    exact hm j hj hu

theorem seqMatch_setData (s : PacketBuffer) (i : Nat) (d : VCMPacket)
    (hd : d.seqNum = (dataAt s i).seqNum)
    (hm : seqMatch s) : seqMatch (setDataSlot s i d) := by
  intro j hj hu
  have hu2 : (seqAt s j).used = true := hu
  by_cases hij : i = j
  · subst hij
    by_cases hlt : i < s.data_buffer_.length
    · have e : dataAt (setDataSlot s i d) i = d := by
        show (s.data_buffer_.set i d).getD i _ = d
        exact getD_set_self _ _ _ _ hlt
      show (seqAt s i).seq_num = (dataAt (setDataSlot s i d) i).seqNum
      rw [e, hd]
      exact hm i hj hu2
    · have e : dataAt (setDataSlot s i d) i = dataAt s i := by
        show (s.data_buffer_.set i d).getD i _ = _
        rw [getD_set_oob _ _ _ (by omega)]
        rfl
      show (seqAt s i).seq_num = (dataAt (setDataSlot s i d) i).seqNum
      rw [e]
      exact hm i hj hu2
  · have e : dataAt (setDataSlot s i d) j = dataAt s j := by
      show (s.data_buffer_.set i d).getD j _ = _
      rw [getD_set_ne _ _ _ _ _ hij]
      rfl
    show (seqAt s j).seq_num = (dataAt (setDataSlot s i d) j).seqNum
    rw [e]
    exact hm j hj hu2

theorem goodState_markContinuous (start : Nat) (s : PacketBuffer) (i : Nat)
    (g : goodState start s) : goodState start (markContinuous s i) := by
  obtain ⟨g1, g2, g3, g4, g5, g6, g7⟩ := g
  refine ⟨g1, ?_, ?_, g4, g5, g6, g7⟩
  · show (s.sequence_buffer_.set i _).length = s.size_
    rw [List.length_set]
    exact g2
  · exact seqMatch_setFlag s i _ (fun _ => ⟨rfl, rfl⟩) g3

theorem goodState_markCreated (start : Nat) (s : PacketBuffer) (i : Nat)
    (g : goodState start s) : goodState start (markCreated s i) := by
  obtain ⟨g1, g2, g3, g4, g5, g6, g7⟩ := g
  refine ⟨g1, ?_, ?_, g4, g5, g6, g7⟩
  · show (s.sequence_buffer_.set i _).length = s.size_
    rw [List.length_set]
    exact g2
  · exact seqMatch_setFlag s i _ (fun _ => ⟨rfl, rfl⟩) g3

theorem goodState_clearCreated (start : Nat) (s : PacketBuffer) (i : Nat)
    (g : goodState start s) : goodState start (clearCreated s i) := by
  obtain ⟨g1, g2, g3, g4, g5, g6, g7⟩ := g
  refine ⟨g1, ?_, ?_, g4, g5, g6, g7⟩
  · show (s.sequence_buffer_.set i _).length = s.size_
    rw [List.length_set]
    exact g2
  · exact seqMatch_setFlag s i _ (fun _ => ⟨rfl, rfl⟩) g3

theorem goodState_freeSlot (start : Nat) (s : PacketBuffer) (i : Nat)
    (g : goodState start s) : goodState start (freeSlot s i) := by
  obtain ⟨g1, g2, g3, g4, g5, g6, g7⟩ := g
  refine ⟨?_, ?_, ?_, g4, g5, g6, g7⟩
  · show (s.data_buffer_.set i _).length = s.size_
    rw [List.length_set]
    exact g1
  · show (s.sequence_buffer_.set i _).length = s.size_
    rw [List.length_set]
    exact g2
  · refine seqMatch_setFlag _ i _ ?_ ?_
    · intro hu
      simp at hu
    · exact seqMatch_setData s i _ rfl g3

theorem goodState_applyFrameTypeWrite (start : Nat) (s2 : PacketBuffer)
    (isH : Bool) (ss : Nat) (k : Bool) (g : goodState start s2) :
    goodState start (applyFrameTypeWrite s2 isH ss k) := by
  unfold applyFrameTypeWrite
  split
  · obtain ⟨g1, g2, g3, g4, g5, g6, g7⟩ := g
    refine ⟨?_, g2, ?_, g4, g5, g6, g7⟩
    · show (s2.data_buffer_.set _ _).length = s2.size_
      rw [List.length_set]
      exact g1
    · exact seqMatch_setData s2 _ _ rfl g3
  · exact g

theorem goodState_backwardWalk (start : Nat) (flag isH : Bool) (ts : Nat)
    (fuel : Nat) :
    ∀ (s : PacketBuffer) (idx sq : Nat) (acc : WalkAcc), goodState start s →
    (∀ s2 t, backwardWalk flag isH ts fuel s idx sq acc = .malformed s2 t →
      goodState start s2) ∧
    (∀ s2 ss si acc2, backwardWalk flag isH ts fuel s idx sq acc = .done s2 ss si acc2 →
      goodState start s2) := by
  induction fuel with
  | zero =>
    intro s idx sq acc g
    constructor
    · intro s2 t h
      rw [backwardWalk] at h
      exact WalkResult.noConfusion h
    · intro s2 ss si acc2 h
      rw [backwardWalk] at h
      injection h with h1 h2 h3 h4
      subst h1
      exact g
  | succ f ih =>
    intro s idx sq acc g
    have g2 : goodState start (markCreated s idx) := goodState_markCreated start s idx g
    constructor
    · intro s2 t h
      rw [backwardWalk] at h
      dsimp only at h
      split at h
      · exact WalkResult.noConfusion h
      · split at h
        · injection h with h1 h2
          subst h1
          exact g2
        · split at h
          · exact WalkResult.noConfusion h
          · split at h <;> split at h
            · exact WalkResult.noConfusion h
            · exact ((ih _ _ _ _ g2).1 _ _ h)
            · exact WalkResult.noConfusion h
            · exact ((ih _ _ _ _ g2).1 _ _ h)
    · intro s2 ss si acc2 h
      rw [backwardWalk] at h
      dsimp only at h
      split at h
      · injection h with h1 h2 h3 h4
        subst h1
        exact g2
      · split at h
        · exact WalkResult.noConfusion h
        · split at h
          · injection h with h1 h2 h3 h4
            subst h1
            exact g2
          · split at h <;> split at h
            · injection h with h1 h2 h3 h4
              subst h1
              exact g2
            · exact ((ih _ _ _ _ g2).2 _ _ _ _ h)
            · injection h with h1 h2 h3 h4
              subst h1
              exact g2
            · exact ((ih _ _ _ _ g2).2 _ _ _ _ h)

theorem goodState_unmarkLoop (start : Nat) (fuel : Nat) :
    ∀ (s : PacketBuffer) (a b : Nat), goodState start s →
    goodState start (unmarkLoop fuel s a b) := by
  induction fuel with
  | zero => intro s a b g; exact g
  | succ f ih =>
    intro s a b g
    rw [unmarkLoop]
    split
    · exact g
    · exact ih _ _ _ (goodState_clearCreated start s a g)

theorem goodState_clearIntervalLoop (start : Nat) (fuel : Nat) :
    ∀ (s : PacketBuffer) (q : Nat), goodState start s →
    goodState start (clearIntervalLoop fuel s q) := by
  induction fuel with
  | zero => intro s q g; exact g
  | succ f ih =>
    intro s q g
    rw [clearIntervalLoop]
    exact ih _ _ (goodState_freeSlot start s _ g)

theorem goodState_missing (start : Nat) (s : PacketBuffer) (ms : List Nat)
    (g : goodState start s) :
    goodState start { s with missing_packets_ := ms } := g

theorem goodState_findFramesLoop (start : Nat) (fuel : Nat) :
    ∀ (s : PacketBuffer) (seq : Nat) (found : List Frame) (it wm : Nat),
    goodState start s →
    goodState start (findFramesLoop fuel s seq found it wm).state := by
  induction fuel with
  | zero => intro s seq found it wm g; exact g
  | succ f ih =>
    intro s seq found it wm g
    rw [findFramesLoop]
    split
    · exact g
    · dsimp only
      have gm : goodState start (markContinuous s (seq % s.size_)) :=
        goodState_markContinuous start s _ g
      split
      · exact ih _ _ _ _ _ gm
      · split
        · rename_i s2 t hw
          exact (goodState_backwardWalk start _ _ _ _ _ _ _ _ gm).1 _ _ hw
        · rename_i s2 ss si acc2 hw
          have g2 : goodState start s2 :=
            (goodState_backwardWalk start _ _ _ _ _ _ _ _ gm).2 _ _ _ _ hw
          have g3 : goodState start (applyFrameTypeWrite s2
              (decide ((dataAt (markContinuous s (seq % s.size_))
                (seq % s.size_)).codec = VideoCodecType.h264)) ss acc2.is_keyframe) :=
            goodState_applyFrameTypeWrite start s2 _ ss _ g2
          split
          · exact goodState_unmarkLoop start _ _ _ _ g3
          · refine ih _ _ _ _ _ ?_
            rw [clearInterval]
            exact goodState_clearIntervalLoop start _ _ _
              (goodState_missing start _ _ g3)

theorem goodState_onTimestampReceived (start : Nat) (s : PacketBuffer) (ts : Nat)
    (g : goodState start s) : goodState start (onTimestampReceived s ts) := by
  obtain ⟨a, b, c, hcore⟩ := onTimestampReceived_core s ts
  rw [hcore]
  exact g

theorem goodState_clear (start : Nat) (s : PacketBuffer)
    (g : goodState start s) : goodState start (clear s) := by
  obtain ⟨g1, g2, g3, g4, g5, g6, g7⟩ := g
  refine ⟨?_, ?_, ?_, g4, g5, g6, g7⟩
  · show (s.data_buffer_.map _).length = s.size_
    rw [List.length_map]
    exact g1
  · show (s.sequence_buffer_.map _).length = s.size_
    rw [List.length_map]
    exact g2
  · intro j hj hu
    rw [clear_used] at hu
    cases hu

theorem rehashFold_good (s : PacketBuffer) (ns : Nat) (hm : seqMatch s)
    (hns : 0 < ns) :
    ∀ k, k ≤ s.size_ →
    ((List.range k).foldl (rehashStep s ns)
        (List.replicate ns {}, List.replicate ns {})).1.length = ns ∧
    ((List.range k).foldl (rehashStep s ns)
        (List.replicate ns {}, List.replicate ns {})).2.length = ns ∧
    ∀ idx, (((List.range k).foldl (rehashStep s ns)
        (List.replicate ns {}, List.replicate ns {})).2.getD idx {}).used = true →
      (((List.range k).foldl (rehashStep s ns)
          (List.replicate ns {}, List.replicate ns {})).2.getD idx {}).seq_num =
      (((List.range k).foldl (rehashStep s ns)
          (List.replicate ns {}, List.replicate ns {})).1.getD idx {}).seqNum := by
  intro k
  induction k with
  | zero =>
    intro _
    simp only [List.range_zero, List.foldl_nil]
    refine ⟨List.length_replicate _ _, List.length_replicate _ _, ?_⟩
    intro idx hu
    rw [getD_replicate] at hu
    split at hu <;> cases hu
  | succ k ih =>
    intro hk
    obtain ⟨pl1, pl2, pspec⟩ := ih (by omega)
    rw [List.range_succ, List.foldl_append, List.foldl_cons, List.foldl_nil]
    have hstep : rehashStep s ns
        ((List.range k).foldl (rehashStep s ns)
          (List.replicate ns {}, List.replicate ns {})) k =
        if (seqAt s k).used = true then
          (((List.range k).foldl (rehashStep s ns)
              (List.replicate ns {}, List.replicate ns {})).1.set
            ((seqAt s k).seq_num % ns) (dataAt s k),
           ((List.range k).foldl (rehashStep s ns)
              (List.replicate ns {}, List.replicate ns {})).2.set
            ((seqAt s k).seq_num % ns) (seqAt s k))
        else ((List.range k).foldl (rehashStep s ns)
          (List.replicate ns {}, List.replicate ns {})) := by
      simp only [rehashStep, seqAt, dataAt]
    rw [hstep]
    by_cases hku : (seqAt s k).used = true
    · rw [if_pos hku]
      refine ⟨by simpa using pl1, by simpa using pl2, ?_⟩
      intro idx hu
      by_cases hidx : idx = (seqAt s k).seq_num % ns
      · subst hidx
        rw [getD_set_self _ _ _ _ (by rw [pl2]; exact Nat.mod_lt _ hns)] at hu ⊢
        rw [getD_set_self _ _ _ _ (by rw [pl1]; exact Nat.mod_lt _ hns)]
        exact hm k (by omega) hku
      · rw [getD_set_ne _ _ _ _ _ (fun h => hidx h.symm)] at hu ⊢
        rw [getD_set_ne _ _ _ _ _ (fun h => hidx h.symm)]
        exact pspec idx hu
    · rw [if_neg hku]
      exact ⟨pl1, pl2, pspec⟩

theorem goodState_expandBufferSize (start : Nat) (s : PacketBuffer)
    (g : goodState start s) : goodState start (expandBufferSize s).2 := by
  obtain ⟨g1, g2, g3, g4, g5, g6, g7⟩ := g
  unfold expandBufferSize
  split
  · exact ⟨g1, g2, g3, g4, g5, g6, g7⟩
  · rename_i hne
    have hlt : s.size_ < s.max_size_ := lt_of_le_of_ne g7 hne
    have hmin : min s.max_size_ (2 * s.size_) = 2 * s.size_ :=
      Nat.min_eq_right (isPow2_double_le _ _ g4 g5 hlt)
    have hszpos := isPow2_pos _ g4
    have hfold := rehashFold_good s (min s.max_size_ (2 * s.size_)) g3
      (by omega) s.size_ (Nat.le_refl _)
    dsimp only
    refine ⟨hfold.1, hfold.2.1, ?_, ?_, g5, ?_, ?_⟩
    · intro j hj hu
      exact hfold.2.2 j hu
    · show isPow2 (min s.max_size_ (2 * s.size_)) = true
      rw [hmin]
      exact isPow2_two_mul _ g4
    · show start ≤ min s.max_size_ (2 * s.size_)
      omega
    · show min s.max_size_ (2 * s.size_) ≤ s.max_size_
      exact Nat.min_le_left _ _

theorem expandBufferSize_max_eq (s : PacketBuffer) :
    (expandBufferSize s).2.max_size_ = s.max_size_ := by
  unfold expandBufferSize
  split <;> rfl

theorem goodState_expandLoop (start : Nat) (fuel : Nat) :
    ∀ (s : PacketBuffer) (q : Nat), goodState start s →
    goodState start (expandLoop fuel s q) := by
  induction fuel with
  | zero => intro s q g; exact g
  | succ f ih =>
    intro s q g
    rw [expandLoop]
    split
    · exact ih _ _ (goodState_expandBufferSize start s g)
    · exact goodState_expandBufferSize start s g

theorem goodState_insertWrite (start : Nat) (s : PacketBuffer) (idx : Nat)
    (c : ContinuityInfo) (pkt : VCMPacket) (g : goodState start s)
    (hidx : idx < s.size_) (hcs : c.seq_num = pkt.seqNum) :
    goodState start (setDataSlot (setSeqSlot s idx c) idx pkt) := by
  obtain ⟨g1, g2, g3, g4, g5, g6, g7⟩ := g
  refine ⟨?_, ?_, ?_, g4, g5, g6, g7⟩
  · show (s.data_buffer_.set idx pkt).length = s.size_
    rw [List.length_set]
    exact g1
  · show (s.sequence_buffer_.set idx c).length = s.size_
    rw [List.length_set]
    exact g2
  intro j hj hu
  by_cases hij : idx = j
  · subst hij
    have e1 : seqAt (setDataSlot (setSeqSlot s idx c) idx pkt) idx = c := by
      show (s.sequence_buffer_.set idx c).getD idx _ = c
      exact getD_set_self _ _ _ _ (by omega)
    have e2 : dataAt (setDataSlot (setSeqSlot s idx c) idx pkt) idx = pkt := by
      show (s.data_buffer_.set idx pkt).getD idx _ = pkt
      exact getD_set_self _ _ _ _ (by omega)
    rw [e1, e2]
    exact hcs
  · have e1 : seqAt (setDataSlot (setSeqSlot s idx c) idx pkt) j = seqAt s j := by
      show (s.sequence_buffer_.set idx c).getD j _ = _
      rw [getD_set_ne _ _ _ _ _ hij]
      rfl
    have e2 : dataAt (setDataSlot (setSeqSlot s idx c) idx pkt) j = dataAt s j := by
      show (s.data_buffer_.set idx pkt).getD j _ = _
      rw [getD_set_ne _ _ _ _ _ hij]
      rfl
    rw [e1] at hu
    rw [e1, e2]
    exact g3 j hj hu

theorem goodState_updateMissing (start : Nat) (s : PacketBuffer) (q : Nat)
    (g : goodState start s) : goodState start (updateMissingPackets s q) := by
  simp only [updateMissingPackets]
  split
  · exact g
  · exact g

theorem goodState_insertPacketFinish (start : Nat) (s : PacketBuffer)
    (p : VCMPacket) (q : Nat) (now : Int) (g : goodState start s) :
    goodState start (insertPacketFinish s p q now).state := by
  have hszpos := isPow2_pos _ g.2.2.2.1
  have g1 := goodState_insertWrite start s (q % s.size_)
    { frame_begin := p.is_first_packet_in_frame
      frame_end := p.is_last_packet_in_frame
      seq_num := p.seqNum
      continuous := false
      frame_created := false
      used := true } p g (Nat.mod_lt _ hszpos) rfl
  have g2 := goodState_updateMissing start _ p.seqNum g1
  exact goodState_findFramesLoop start _ _ _ _ _ _ g2

theorem goodState_insertPacket (start : Nat) (s : PacketBuffer)
    (p : VCMPacket) (now : Int) (g : goodState start s) :
    goodState start (insertPacket s p now).state := by
  have g0 := goodState_onTimestampReceived start s p.timestamp g
  unfold insertPacket
  dsimp only
  have store : ∀ s2 : PacketBuffer, goodState start s2 →
      goodState start (insertPacketStore s2 p p.seqNum now).state := by
    intro s2 g2
    unfold insertPacketStore
    dsimp only
    split
    · split
      · exact g2
      · have ge := goodState_expandLoop start (s2.max_size_ + 1) s2 p.seqNum g2
        split
        · exact goodState_clear start _ ge
        · exact goodState_insertPacketFinish start _ p p.seqNum now ge
    · exact goodState_insertPacketFinish start _ p p.seqNum now g2
  split
  · exact store _ g0
  · split
    · split
      · exact g0
      · exact store _ g0
    · exact store _ g0

theorem goodState_clearToLoop (start : Nat) (fuel : Nat) :
    ∀ (s : PacketBuffer) (q : Nat), goodState start s →
    goodState start (clearToLoop fuel s q) := by
  induction fuel with
  | zero => intro s q g; exact g
  | succ f ih =>
    intro s q g
    rw [clearToLoop]
    refine ih _ _ ?_
    split
    · exact goodState_freeSlot start s _ g
    · exact g

theorem goodState_clearTo (start : Nat) (s : PacketBuffer) (q : Nat)
    (g : goodState start s) : goodState start (clearTo s q) := by
  unfold clearTo
  split
  · exact g
  · split
    · exact g
    · exact goodState_clearToLoop start _ s _ g

theorem goodState_paddingReceived (start : Nat) (s : PacketBuffer) (q : Nat)
    (g : goodState start s) : goodState start (paddingReceived s q).1 := by
  unfold paddingReceived findFrames
  dsimp only
  exact goodState_findFramesLoop start _ _ _ _ _ _
    (goodState_updateMissing start s q g)

/-- `C9`: every public operation — `InsertPacket`, `ClearTo`, `Clear`,
`PaddingReceived` — preserves the invariant that every used slot stores
the same sequence number in `sequence_buffer_` and `data_buffer_`, and
that the capacity stays a power of two between the start capacity and
the (power-of-two) max capacity. -/
theorem c9_operations_preserve_invariant (start : Nat) (s : PacketBuffer)
    (p : VCMPacket) (now : Int) (seqc seqp : Nat)
    (g : goodState start s) :
    goodState start (insertPacket s p now).state ∧
    goodState start (clearTo s seqc) ∧
    goodState start (clear s) ∧
    goodState start (paddingReceived s seqp).1 :=
  ⟨goodState_insertPacket start s p now g,
   goodState_clearTo start s seqc g,
   goodState_clear start s g,
   goodState_paddingReceived start s seqp g⟩

/-- `C9` witness: the four operations at a concrete good state. -/
theorem c9_witness :
    goodState 4 (insertPacket exDup (examplePacket 2 200 true true [7]) 0).state ∧
    goodState 4 (clearTo exDup 1) ∧
    goodState 4 (clear exDup) ∧
    goodState 4 (paddingReceived exDup 3).1 :=
  c9_operations_preserve_invariant 4 exDup (examplePacket 2 200 true true [7]) 0 1 3
    (by unfold goodState seqMatch; decide)

/-- `C1` witness: the duplicate path at a concrete state. -/
theorem c1_witness :
    (insertPacket exDup (examplePacket 1 100 false false [4]) 0).ok = true ∧
    slotCountFor (insertPacket exDup (examplePacket 1 100 false false [4]) 0).state 1 = 1 := by
  have h := (c1_insert_return_contract exDup (examplePacket 1 100 false false [4]) 0
    (by decide) (by decide) (by unfold idxInv; decide)
    (by unfold seqMatch; decide)).2 (by decide) (by decide)
  exact ⟨h.1, h.2.2.2.2⟩

end WebRTC
